import Mathlib

/-!
Verification development for the CMOS session-runtime core
(`cmos/context/session_runtime.py`, `cmos/context/validators.py`,
`cmos/context/view_helpers.py`).

Python strings are modelled as `List Char` (`PyStr`); Python string
operations used by the code (`strip`, `lower`, `upper`, substring test,
lexicographic comparison) are defined below for that representation.
Timestamps are the ISO-8601 strings the code itself stores and compares
(`_utc_now` format `YYYY-MM-DDTHH:MM:SSZ`); both SQLite's `<=` on TEXT and
Python's `>` on `str` are byte-wise lexicographic comparison, modelled by
`strLt`/`strLe`.
-/

namespace CMOS

/-- Python `str` modelled as its list of characters. -/
abbrev PyStr := List Char

/-- Coerce a Lean string literal to the `PyStr` representation. -/
def chars (s : String) : PyStr := s.data

/-- Python `str.lower()` restricted to the ASCII fragment the code relies on
(`Char.toLower` maps exactly `A`–`Z`). -/
def pyLower (s : PyStr) : PyStr := s.map Char.toLower

/-- Python `str.upper()` restricted to the ASCII fragment. -/
def pyUpper (s : PyStr) : PyStr := s.map Char.toUpper

/-- Python `str.strip()`: drop whitespace from both ends. -/
def pyStrip (s : PyStr) : PyStr :=
  ((s.dropWhile Char.isWhitespace).reverse.dropWhile Char.isWhitespace).reverse

/-- `needle` is a leading segment of `hay` (Python `str.startswith`). -/
def listStarts : PyStr → PyStr → Bool
  | [], _ => true
  | _ :: _, [] => false
  | a :: as, b :: bs => a = b && listStarts as bs

/-- Python substring test `needle in hay`. -/
def pyContains (needle : PyStr) : PyStr → Bool
  | [] => needle.isEmpty
  | c :: rest => listStarts needle (c :: rest) || pyContains needle rest

/-- Byte-wise lexicographic `<` on strings: Python `str` comparison and
SQLite BINARY-collation TEXT comparison (UTF-8 encoding preserves code-point
order, so comparing code points is comparing bytes). -/
def strLt : PyStr → PyStr → Bool
  | [], [] => false
  | [], _ :: _ => true
  | _ :: _, [] => false
  | a :: as, b :: bs => a.toNat < b.toNat || (a.toNat = b.toNat && strLt as bs)

/-- Lexicographic `<=` on strings (SQLite `<=` on TEXT). -/
def strLe (x y : PyStr) : Bool := strLt x y || x = y

/-- Python truthiness-based `a or b` on optional strings (`None` and `""`
are falsy). -/
def pyOrS (a b : Option PyStr) : Option PyStr :=
  match a with
  | some t => if t = [] then b else some t
  | none => b

/-- Decimal digits of `n`, most significant first (fuelled so that the
kernel can evaluate it; the fuel `n + 1` always suffices since `n / 10 < n`
for `n ≥ 10`). -/
def natCharsAux : Nat → Nat → PyStr
  | 0, _ => []
  | fuel + 1, n =>
    if n < 10 then [Nat.digitChar n]
    else natCharsAux fuel (n / 10) ++ [Nat.digitChar (n % 10)]

/-- Python `str(n)` for a natural number: its decimal digits. -/
def natChars (n : Nat) : PyStr := natCharsAux (n + 1) n

/-- Python format `f"{n:03d}"`: zero-pad to width 3. -/
def pad3 (n : Nat) : PyStr :=
  let d := natChars n
  if d.length < 3 then List.replicate (3 - d.length) '0' ++ d else d

/-- Python format `f"{n:02d}"`. -/
def pad2 (n : Nat) : PyStr :=
  let d := natChars n
  if d.length < 2 then List.replicate (2 - d.length) '0' ++ d else d

/-- Python format `f"{n:04d}"` (year field of `isoformat`). -/
def pad4 (n : Nat) : PyStr :=
  let d := natChars n
  if d.length < 4 then List.replicate (4 - d.length) '0' ++ d else d

/-- Python `int(s)` restricted to non-empty all-digit strings, the shape of
every generated identifier suffix; other shapes are `none` (the code
catches the `ValueError` and falls back to `0`). -/
def pyInt? (s : PyStr) : Option Nat :=
  if s.isEmpty then none
  else if s.all Char.isDigit then
    some (s.foldl (fun a c => a * 10 + (c.toNat - 48)) 0)
  else none

/-- `s.split("-")[-1]`: the segment after the last `-` (the whole string
when no `-` occurs). -/
def lastDashChunk (s : PyStr) : PyStr :=
  (s.reverse.takeWhile (fun c => c ≠ '-')).reverse

/-- `", ".join` / `"; ".join` style joining. -/
def joinWith (sep : PyStr) : List PyStr → PyStr
  | [] => []
  | [x] => x
  | x :: y :: rest => x ++ sep ++ joinWith sep (y :: rest)

/-- Insertion into a list sorted by `strLt` (used to model Python
`sorted`). -/
def insSorted (key : α → PyStr) (x : α) : List α → List α
  | [] => [x]
  | y :: ys => if strLt (key y) (key x) then y :: insSorted key x ys else x :: y :: ys

/-- Python `sorted` by a string key (insertion sort; all uses have distinct
keys, so stability is irrelevant). -/
def sortByKey (key : α → PyStr) : List α → List α
  | [] => []
  | x :: xs => insSorted key x (sortByKey key xs)

/-- Keep the last `n` elements (Python `l[-n:]`). -/
def takeLast (n : Nat) (l : List α) : List α := l.drop (l.length - n)

/-- Python `if len(l) > cap: del l[:-cap]` — drop from the front until the
length is at the cap. -/
def pyTrimFront (cap : Nat) (l : List α) : List α :=
  if l.length > cap then l.drop (l.length - cap) else l

/-! ### Calendar arithmetic

`datetime.fromisoformat` / `isoformat` on the UTC timestamps the runtime
produces, modelled via the standard civil-calendar/epoch-day conversion.
Only timezone-aware stamps (`Z` or `+00:00` suffix) are parsed: a naive
stamp would be interpreted in the machine-local timezone by
`astimezone`, which is outside the model. -/

/-- Gregorian leap year (`calendar` rule used by `datetime`). -/
def isLeap (y : Int) : Bool := (y % 4 = 0 && y % 100 ≠ 0) || y % 400 = 0

/-- Days in a month, as validated by `datetime.fromisoformat`. -/
def daysInMonth (y : Int) (m : Nat) : Nat :=
  if m = 2 then (if isLeap y then 29 else 28)
  else if m = 4 ∨ m = 6 ∨ m = 9 ∨ m = 11 then 30
  else 31

/-- Days from the civil epoch 1970-01-01 (Hinnant's `days_from_civil`). -/
def daysFromCivil (y : Int) (m d : Nat) : Int :=
  let y' : Int := if m ≤ 2 then y - 1 else y
  let era : Int := (if 0 ≤ y' then y' else y' - 399) / 400
  let yoe : Int := y' - era * 400
  let mp : Int := if m > 2 then (m : Int) - 3 else (m : Int) + 9
  let doy : Int := (153 * mp + 2) / 5 + (d : Int) - 1
  let doe : Int := yoe * 365 + yoe / 4 - yoe / 100 + doy
  era * 146097 + doe - 719468

/-- Civil date from days since the epoch (Hinnant's `civil_from_days`). -/
def civilFromDays (z : Int) : Int × Nat × Nat :=
  let z' := z + 719468
  let era : Int := z'.fdiv 146097
  let doe : Nat := (z' - era * 146097).toNat
  let yoe : Nat := (doe - doe / 1460 + doe / 36524 - doe / 146096) / 365
  let y : Int := (yoe : Int) + era * 400
  let doy : Nat := doe - (365 * yoe + yoe / 4 - yoe / 100)
  let mp : Nat := (5 * doy + 2) / 153
  let d : Nat := doy - (153 * mp + 2) / 5 + 1
  let m : Nat := if mp < 10 then mp + 3 else mp - 9
  (if m ≤ 2 then y + 1 else y, m, d)

/-- Epoch seconds of a civil UTC datetime. -/
def epochOfCivil (y : Int) (mo d h mi s : Nat) : Int :=
  daysFromCivil y mo d * 86400 + (h : Int) * 3600 + (mi : Int) * 60 + (s : Int)

/-- Numeric value of a digit character. -/
def digitVal (c : Char) : Nat := c.toNat - 48

/-- Parse a timezone-aware second-resolution ISO-8601 stamp
`YYYY-MM-DDTHH:MM:SS` suffixed `Z` or `+00:00` — the exact shape `_utc_now`
emits — to epoch seconds, validating field ranges as
`datetime.fromisoformat` does. Other inputs yield `none`. -/
def parseIsoZ (s : PyStr) : Option Int :=
  match s with
  | y1 :: y2 :: y3 :: y4 :: '-' :: m1 :: m2 :: '-' :: d1 :: d2 :: 'T' ::
    h1 :: h2 :: ':' :: n1 :: n2 :: ':' :: s1 :: s2 :: rest =>
    if ([y1, y2, y3, y4, m1, m2, d1, d2, h1, h2, n1, n2, s1, s2].all Char.isDigit)
        && (rest = ['Z'] || rest = ['+', '0', '0', ':', '0', '0']) then
      let y : Int := (1000 * digitVal y1 + 100 * digitVal y2 + 10 * digitVal y3 + digitVal y4 : Nat)
      let mo := 10 * digitVal m1 + digitVal m2
      let d := 10 * digitVal d1 + digitVal d2
      let h := 10 * digitVal h1 + digitVal h2
      let mi := 10 * digitVal n1 + digitVal n2
      let se := 10 * digitVal s1 + digitVal s2
      if 1 ≤ mo && mo ≤ 12 && 1 ≤ d && d ≤ daysInMonth y mo && h ≤ 23 && mi ≤ 59 && se ≤ 59 then
        some (epochOfCivil y mo d h mi se)
      else none
    else none
  | _ => none

/-- `datetime.isoformat` of an epoch-second instant in UTC with the
trailing `+00:00` replaced by `Z` (the `_utc_now` output shape). -/
def formatEpochZ (t : Int) : PyStr :=
  let days := t.fdiv 86400
  let rem := (t - days * 86400).toNat
  let ymd := civilFromDays days
  pad4 ymd.1.toNat ++ chars ("-") ++ pad2 ymd.2.1 ++ chars ("-") ++ pad2 ymd.2.2 ++
    chars ("T") ++ pad2 (rem / 3600) ++ chars (":") ++ pad2 (rem / 60 % 60) ++
    chars (":") ++ pad2 (rem % 60) ++ chars ("Z")

/-! ### Input validator (`cmos/context/validators.py`) -/

/-- `ALLOWED_SESSION_TYPES`. -/
def ALLOWED_SESSION_TYPES : List PyStr :=
  [chars ("onboarding"), chars ("planning"), chars ("review"), chars ("research"),
   chars ("check-in"), chars ("custom")]

/-- `CAPTURE_CATEGORIES`. -/
def CAPTURE_CATEGORIES : List PyStr :=
  [chars ("decision"), chars ("learning"), chars ("constraint"), chars ("context"),
   chars ("next-step")]

/-- `MAX_CAPTURE_LENGTH`. -/
def MAX_CAPTURE_LENGTH : Nat := 1000

/-- `MAX_NEXT_STEP_LENGTH`. -/
def MAX_NEXT_STEP_LENGTH : Nat := 500

/-- `_normalize_choice`: lower-case the trimmed value and require membership
in the allowed list; `ValueError` is modelled as `Except.error` carrying the
message. -/
def normalizeChoice (value : PyStr) (allowed : List PyStr) (field : PyStr) :
    Except PyStr PyStr :=
  let cleaned := pyLower (pyStrip value)
  if cleaned = [] then .error (field ++ chars (" must be provided."))
  else if allowed.any (fun item => pyLower item = cleaned) then .ok cleaned
  else
    .error (chars ("Invalid ") ++ field ++ chars (" \x27") ++ value ++
      chars ("\x27. Valid options: ") ++
      joinWith (chars (", ")) (sortByKey id allowed) ++ chars ("."))

/-- `_normalize_text`. -/
def normalizeText (value : PyStr) (field : PyStr) : Except PyStr PyStr :=
  let cleaned := pyStrip value
  if cleaned = [] then .error (field ++ chars (" must be provided."))
  else .ok cleaned

/-- `normalize_session_type`. -/
def normalize_session_type (value : PyStr) : Except PyStr PyStr :=
  normalizeChoice value ALLOWED_SESSION_TYPES (chars ("session type"))

/-- `normalize_capture_category`. -/
def normalize_capture_category (value : PyStr) : Except PyStr PyStr :=
  normalizeChoice value CAPTURE_CATEGORIES (chars ("category"))

/-- `normalize_capture_content`. -/
def normalize_capture_content (content : PyStr) : Except PyStr PyStr :=
  match normalizeText content (chars ("content")) with
  | .error e => .error e
  | .ok cleaned =>
    if cleaned.length > MAX_CAPTURE_LENGTH then
      .error (chars ("content exceeds 1000 characters."))
    else .ok cleaned

/-- `normalize_summary`. -/
def normalize_summary (summary : PyStr) : Except PyStr PyStr :=
  normalizeText summary (chars ("summary"))

/-- `normalize_title`. -/
def normalize_title (title : PyStr) : Except PyStr PyStr :=
  normalizeText title (chars ("title"))

/-- Loop body of `normalize_next_steps` (the list is typed `List PyStr`, so
the `isinstance(raw, str)` guard is always satisfied). -/
def normalizeNextStepsGo : List PyStr → Except PyStr (List PyStr)
  | [] => .ok []
  | raw :: rest =>
    let note := pyStrip raw
    if note = [] then normalizeNextStepsGo rest
    else if note.length > MAX_NEXT_STEP_LENGTH then
      .error (chars ("next step \x27") ++ note.take 25 ++
        chars ("...\x27 exceeds 500 characters."))
    else
      match normalizeNextStepsGo rest with
      | .error e => .error e
      | .ok cleaned => .ok (note :: cleaned)

/-- `normalize_next_steps`: trim each note, silently drop empties, reject
any surviving note above the 500-character ceiling. -/
def normalize_next_steps (next_steps : Option (List PyStr)) :
    Except PyStr (List PyStr) :=
  match next_steps with
  | none => .ok []
  | some l => if l = [] then .ok [] else normalizeNextStepsGo l

/-- `_parse_iso` of `validators.py`: strip, empty → `None`, then
`fromisoformat` (timezone-aware stamps only, see `parseIsoZ`). -/
def parseIso (value : PyStr) : Option Int :=
  let cleaned := pyStrip value
  if cleaned = [] then none else parseIsoZ cleaned

/-- `detect_stale_session`: elapsed whole hours (floor division, clamped to
zero) against the threshold. `nowSec` is the epoch-second view of
`datetime.now(tz=utc)`. -/
def detect_stale_session (nowSec : Int) (started_at : Option PyStr)
    (threshold_hours : Int) : Bool × Option Int :=
  match started_at with
  | none => (false, none)
  | some sa =>
    if sa = [] then (false, none)
    else
      match parseIso sa with
      | none => (false, none)
      | some startSec =>
        let hours := (nowSec - startSec).fdiv 3600
        let hours := if hours < 0 then 0 else hours
        (threshold_hours ≤ hours, some hours)

/-! ### Data model (`session_runtime.py`)

The relational store (`db_client.py`) is not part of the sources; following
the spec it is an external collaborator exposing scoped transactions,
row-level CRUD on `sessions`/`session_events` and a document get/set.  Its
state is modelled as plain lists/records inside `MachineState`, and the SQL
statements the runtime issues are modelled by the corresponding list
operations. -/

/-- `sessions.status` values used by the runtime. -/
inductive SessionStatus
  | active
  | completed
deriving DecidableEq, Repr

/-- A capture record (`SessionCapture` dataclass / its `to_dict` image). -/
structure Capture where
  timestamp : PyStr
  category : PyStr
  content : PyStr
  context : Option PyStr
deriving DecidableEq, Repr

/-- `SessionCapture.to_dict`: the `context` key is omitted when falsy. -/
def captureToDict (c : Capture) : Capture :=
  { c with context := match c.context with
      | some t => if t = [] then none else some t
      | none => none }

/-- A row of the `sessions` table.  `stype` models the `type` column;
opaque `metadata` is modelled by the two keys the code consults
(`domain`, `project_domain`). -/
structure SessionRow where
  id : PyStr
  stype : PyStr
  title : PyStr
  sprintId : Option PyStr
  startedAt : PyStr
  completedAt : Option PyStr
  agent : PyStr
  status : SessionStatus
  captures : List Capture
  nextSteps : Option (List PyStr)
  summary : Option PyStr
  metaDomain : Option PyStr
  metaProjectDomain : Option PyStr
deriving DecidableEq, Repr

/-- A row of the append-only `session_events` table (`raw_event` is the
serialization of the same fields and is not duplicated in the model). -/
structure SessionEventRec where
  ts : PyStr
  agent : PyStr
  mission : PyStr
  action : PyStr
  status : PyStr
  summary : PyStr
  nextHint : Option PyStr
deriving DecidableEq, Repr

/-- The `working_memory.active_session` pointer dictionary. -/
structure ActiveInfo where
  id : PyStr
  stype : PyStr
  title : PyStr
  agent : PyStr
  startedAt : PyStr
  sprintId : Option PyStr
  captures : List Capture
deriving DecidableEq, Repr

/-- One `session_history` entry. -/
structure HistoryEntry where
  session : PyStr
  sessionType : PyStr
  agent : PyStr
  summary : PyStr
  action : PyStr
  ts : PyStr
deriving DecidableEq, Repr

/-- One `recent_sessions` entry built by `_append_recent_session`
(the dict stores the type under both `session_type` and `type`; a single
field models both; the sanitized `captures` dict is absent exactly when
empty, modelled by the empty list). -/
structure RecentEntry where
  id : PyStr
  sessionType : PyStr
  title : PyStr
  summary : PyStr
  completedAt : PyStr
  captureCount : Nat
  captures : List (PyStr × Nat)
deriving DecidableEq, Repr

/-- The `context_health` block.  `sizeKb` stores the byte length computed
by `serializedSize` (the code divides by 1024 and rounds for display; the
rounded float is presentation only). -/
structure ContextHealth where
  sessionsSinceReset : Nat
  lastUpdate : Option PyStr
  sizeKb : Nat
  sizeLimitKb : Nat
deriving DecidableEq, Repr

/-- `working_memory` of the project context. -/
structure ProjectWorking where
  activeSession : Option ActiveInfo
  sessionHistory : List HistoryEntry
  lastSession : Option PyStr
  sessionCount : Nat
  nextSteps : List PyStr
  recentSessions : List RecentEntry
deriving DecidableEq, Repr

/-- The `project_context` document (the keys the runtime touches). -/
structure ProjectContext where
  working : ProjectWorking
  health : ContextHealth
deriving DecidableEq, Repr

/-- The `master_context` document: aggregated insight lists, the
`next_session_context.when_we_resume` list, top-level `recent_sessions`,
and health. -/
structure MasterContext where
  decisionsMade : List PyStr
  learnings : List PyStr
  constraints : List PyStr
  contextNotes : List PyStr
  whenWeResume : List PyStr
  recentSessions : List RecentEntry
  health : ContextHealth
deriving DecidableEq, Repr

/-- Whole-system state: the store's two tables plus the two context
documents (the documents live in the store's document API; the runtime
loads, mutates and persists them each operation, which for a single writer
is equivalent to keeping them in the state). -/
structure MachineState where
  sessions : List SessionRow
  events : List SessionEventRec
  project : ProjectContext
  master : MasterContext
deriving DecidableEq, Repr

/-- Initial health of a fresh (empty-dict) context document after the first
`_update_context_health` `setdefault`s run. -/
def initHealth : ContextHealth :=
  { sessionsSinceReset := 0, lastUpdate := none, sizeKb := 0, sizeLimitKb := 100 }

/-- Initial machine state: empty store, empty documents. -/
def initState : MachineState :=
  { sessions := []
    events := []
    project := { working := { activeSession := none, sessionHistory := [],
                              lastSession := none, sessionCount := 0,
                              nextSteps := [], recentSessions := [] },
                 health := initHealth }
    master := { decisionsMade := [], learnings := [], constraints := [],
                contextNotes := [], whenWeResume := [], recentSessions := [],
                health := initHealth } }

/-! ### Errors and lifecycle messages -/

/-- The session error hierarchy: `ValidationError`,
`SessionRuntimeError` (store failures), `ActiveSessionError` and
`NoActiveSessionError` are distinct exception classes; the constructor
tags make the kinds distinguishable by callers, as in the source. -/
inductive SErr
  | validation (msg : PyStr)
  | runtime (msg : PyStr) (hint : Option PyStr) (suggestion : Option PyStr)
  | activeSession (msg : PyStr) (hint : Option PyStr) (suggestion : Option PyStr)
  | noActiveSession (msg : PyStr) (hint : Option PyStr) (suggestion : Option PyStr)
deriving DecidableEq, Repr

/-- `STALE_SESSION_THRESHOLD_HOURS`. -/
def STALE_SESSION_THRESHOLD_HOURS : Int := 24

/-- The stale-session message of `_build_active_session_message`. -/
def staleMessage (sid readable : PyStr) : PyStr :=
  chars ("Active session ") ++ sid ++ chars (" has been idle for ") ++ readable ++
    chars (". Use \x27session resume\x27 to continue capturing or \x27session complete\x27 to finish it.")

/-- The fresh-session message of `_build_active_session_message`. -/
def freshMessage (sid : PyStr) : PyStr :=
  chars ("Active session ") ++ sid ++
    chars (" exists. Use \x27session resume\x27 to continue or \x27session complete\x27 to finish it before starting another.")

/-- The fixed hint of `_build_active_session_message`. -/
def activeHint : PyStr :=
  chars ("Resume capturing with: ./cmos/cli.py session capture decision \"Update\"")

/-- The suggestion of `_build_active_session_message`. -/
def activeSuggestion (sid : PyStr) : PyStr :=
  chars ("Finish it with: ./cmos/cli.py session complete --session ") ++ sid ++
    chars (" --summary \"Wrap-up\"")

/-- `_build_active_session_message`: pick the stale or fresh wording from
`detect_stale_session` on the blocking session's start stamp. -/
def buildActiveSessionMessage (nowSec : Int) (info : ActiveInfo) :
    PyStr × PyStr × PyStr :=
  let sid := if info.id = [] then chars ("(unknown)") else info.id
  let st := detect_stale_session nowSec (some info.startedAt) STALE_SESSION_THRESHOLD_HOURS
  let readable := match st.2 with
    | some h => natChars h.toNat ++ chars ("h")
    | none => chars ("24h")
  let message := if st.1 then staleMessage sid readable else freshMessage sid
  (message, activeHint, activeSuggestion sid)

/-- Message of the `NoActiveSessionError` raised for a missing session. -/
def sessionMissingMsg (sid : PyStr) : PyStr :=
  chars ("Session ") ++ sid ++ chars (" does not exist.")

/-- Message of the `ActiveSessionError` raised for a non-active session. -/
def sessionNotActiveMsg (sid : PyStr) : PyStr :=
  chars ("Session ") ++ sid ++ chars (" is not active.")

/-- The `session list` suggestion shared by the missing/not-active paths. -/
def listSuggestion : PyStr :=
  chars ("List sessions with: ./cmos/cli.py session list")

/-! ### Projection helpers -/

/-- Deterministic serialized-size stand-in for `len(json.dumps(payload))`:
the total character count of the document's string content.  The code's
kilobyte rounding is display formatting; what matters for the model is that
the metric is recomputed from the document on every health update. -/
def serializedSizeStrs (ls : List PyStr) : Nat :=
  ls.foldl (fun a s => a + s.length) 0

/-- Serialized-size stand-in for the project document. -/
def projectSize (p : ProjectWorking) : Nat :=
  serializedSizeStrs (p.nextSteps) + p.sessionHistory.length + p.recentSessions.length

/-- Serialized-size stand-in for the master document. -/
def masterSize (m : MasterContext) : Nat :=
  serializedSizeStrs (m.decisionsMade ++ m.learnings ++ m.constraints ++
    m.contextNotes ++ m.whenWeResume) + m.recentSessions.length

/-- `_update_context_health` on the project document: bump the counter when
asked, stamp `last_update`, recompute the size metric from the updated
payload. -/
def updateHealthP (p : ProjectContext) (ts : PyStr) (inc : Bool) : ProjectContext :=
  let h0 := p.health
  let h1 := { h0 with
    sessionsSinceReset := if inc then h0.sessionsSinceReset + 1 else h0.sessionsSinceReset,
    lastUpdate := some ts }
  { p with health := { h1 with sizeKb := projectSize p.working } }

/-- `_update_context_health` on the master document. -/
def updateHealthM (m : MasterContext) (ts : PyStr) (inc : Bool) : MasterContext :=
  let h0 := m.health
  let h1 := { h0 with
    sessionsSinceReset := if inc then h0.sessionsSinceReset + 1 else h0.sessionsSinceReset,
    lastUpdate := some ts }
  { m with health := { h1 with sizeKb := masterSize m } }

/-- `_record_session_history`: append the entry, trim to the last 50, stamp
`last_session`, bump `session_count` on `start` actions. -/
def recordSessionHistory (w : ProjectWorking) (sessionId sessionType ts agent summary action : PyStr) :
    ProjectWorking :=
  let entry : HistoryEntry :=
    { session := sessionId, sessionType := sessionType, agent := agent,
      summary := summary, action := action, ts := ts }
  { w with
    sessionHistory := pyTrimFront 50 (w.sessionHistory ++ [entry]),
    lastSession := some ts,
    sessionCount := if action = chars ("start") then w.sessionCount + 1 else w.sessionCount }

/-- `_with_session_reference` (runtime version): trim, empty → empty,
append the `(from …)` suffix only when the identifier is not already a
substring. -/
def withSessionReference (content sessionId : PyStr) : PyStr :=
  let cleaned := pyStrip content
  if cleaned = [] then []
  else if pyContains sessionId cleaned then cleaned
  else cleaned ++ chars (" (from ") ++ sessionId ++ chars (")")

/-- `_constraint_exists`: case-insensitive membership after trimming (all
stored entries are strings, so the `isinstance` guard always passes). -/
def constraintExists (existing : List PyStr) (candidate : PyStr) : Bool :=
  existing.any (fun item => pyLower (pyStrip item) = pyLower (pyStrip candidate))

/-- `collections.Counter` increment preserving first-insertion order. -/
def bumpCount (counts : List (PyStr × Nat)) (k : PyStr) : List (PyStr × Nat) :=
  match counts with
  | [] => [(k, 1)]
  | (k', v) :: rest => if k' = k then (k', v + 1) :: rest else (k', v) :: bumpCount rest k

/-- One iteration of the `_apply_captures_to_master` loop. -/
def applyCaptureStep (sessionId : PyStr)
    (st : MasterContext × List (PyStr × Nat)) (cap : Capture) :
    MasterContext × List (PyStr × Nat) :=
  let m := st.1
  let category := pyLower (pyStrip cap.category)
  let content := pyStrip cap.content
  if content = [] ∨ category ∉ CAPTURE_CATEGORIES then st
  else
    let counts := bumpCount st.2 category
    if category = chars ("decision") then
      let entry := withSessionReference content sessionId
      (if entry ≠ [] then { m with decisionsMade := m.decisionsMade ++ [entry] } else m, counts)
    else if category = chars ("learning") then
      let entry := withSessionReference content sessionId
      (if entry ≠ [] then { m with learnings := m.learnings ++ [entry] } else m, counts)
    else if category = chars ("constraint") then
      (if content ≠ [] ∧ ¬ constraintExists m.constraints content then
        { m with constraints := m.constraints ++ [content] } else m, counts)
    else if category = chars ("context") then
      ({ m with contextNotes := m.contextNotes ++ [content] }, counts)
    else -- "next-step"
      let entry := sessionId ++ chars (": ") ++ content
      (if entry ∉ m.whenWeResume then
        { m with whenWeResume := pyTrimFront 25 (m.whenWeResume ++ [entry]) }
       else m, counts)

/-- `_apply_captures_to_master`: fold every capture into the master
aggregate, returning the per-category counts (`Counter` entries are always
positive, matching the final comprehension). -/
def applyCapturesToMaster (m : MasterContext) (captures : List Capture) (sessionId : PyStr) :
    MasterContext × List (PyStr × Nat) :=
  if captures = [] then (m, [])
  else
    let r := captures.foldl (applyCaptureStep sessionId) (m, [])
    (r.1, r.2.filter (fun kv => kv.2 ≠ 0))

/-- The `entry` dict of `_append_recent_session`. -/
def mkRecentEntry (rowId rowType rowTitle summary completedAt : PyStr)
    (captureSummary : List (PyStr × Nat)) : RecentEntry :=
  { id := rowId, sessionType := rowType, title := rowTitle, summary := summary,
    completedAt := completedAt,
    captureCount := (captureSummary.filter (fun kv => 0 < kv.2)).foldl (fun a kv => a + kv.2) 0,
    captures := captureSummary.filter (fun kv => 0 < kv.2) }

/-- `_append_recent_session` on a recent-sessions list: append then trim to
the last `limit` entries. -/
def appendRecent (l : List RecentEntry) (limit : Nat) (entry : RecentEntry) :
    List RecentEntry :=
  pyTrimFront limit (l ++ [entry])

/-- Deduplicating append loop of `_record_next_steps`. -/
def dedupAppend (base : List PyStr) (sessionId : PyStr) (notes : List PyStr) : List PyStr :=
  notes.foldl (fun acc note =>
    let entry := sessionId ++ chars (": ") ++ note
    if entry ∈ acc then acc else acc ++ [entry]) base

/-- `_record_next_steps`: clean the notes, append session-prefixed
deduplicated entries to the project `next_steps` and the master
`when_we_resume` lists, trimming each to the last 25. -/
def recordNextSteps (w : ProjectWorking) (m : MasterContext) (sessionId : PyStr)
    (nextSteps : List PyStr) : ProjectWorking × MasterContext :=
  let cleaned := (nextSteps.map pyStrip).filter (fun n => n ≠ [])
  if cleaned = [] then (w, m)
  else
    let todo := pyTrimFront 25 (dedupAppend w.nextSteps sessionId cleaned)
    let resume := pyTrimFront 25 (dedupAppend m.whenWeResume sessionId cleaned)
    ({ w with nextSteps := todo }, { m with whenWeResume := resume })

/-! ### Session-id generation -/

/-- SQLite `LIKE 'prefix%'` with its default ASCII-case-insensitive
matching (`Char.toLower` folds exactly `A`–`Z`). -/
def sqlLikeMatch (pfx s : PyStr) : Bool := listStarts (pyLower pfx) (pyLower s)

/-- `ORDER BY id DESC LIMIT 1`: the lexicographic maximum under the BINARY
collation. -/
def lexMaxId (ids : List PyStr) : Option PyStr :=
  ids.foldl (fun acc i =>
    match acc with
    | none => some i
    | some m => if strLt m i then some i else some m) none

/-- `_generate_session_id`: today's `PS-{date}-` prefix, the greatest
matching identifier's numeric suffix (0 on parse failure or no match) plus
one, zero-padded to three digits. -/
def generateSessionId (datePart : PyStr) (ids : List PyStr) : PyStr :=
  let pfx := chars ("PS-") ++ datePart ++ chars ("-")
  let lastCounter :=
    match lexMaxId (ids.filter (fun i => sqlLikeMatch pfx i)) with
    | some topId => (pyInt? (lastDashChunk topId)).getD 0
    | none => 0
  pfx ++ pad3 (lastCounter + 1)

/-! ### Lifecycle operations

Each operation takes a `Clock`: the three views of the current instant the
code obtains from `datetime.now` (`_utc_now` ISO string, `strftime`
date, and the instant itself for timedelta arithmetic, as epoch
seconds). -/

/-- The current instant as consumed by one lifecycle operation. -/
structure Clock where
  iso : PyStr
  date : PyStr
  sec : Int
deriving DecidableEq, Repr

/-- `start_session`.  Validation first, then the active-session
precondition against the project document's pointer, then the transaction
(id generation, session insert, start event), then the projection updates.
The store's `sessions` table is keyed by `id` (spec: date-scoped unique
identifiers), so inserting a duplicate identifier fails at the store and is
surfaced as the translated store error. -/
def startSession (clk : Clock) (sessionType title agent : PyStr)
    (sprintId metaDomain metaProjectDomain : Option PyStr)
    (st : MachineState) : Except SErr (MachineState × PyStr) :=
  match normalize_session_type sessionType with
  | .error e => .error (.validation e)
  | .ok cleanType =>
  match normalize_title title with
  | .error e => .error (.validation e)
  | .ok cleanTitle =>
  match st.project.working.activeSession with
  | some info =>
    let msg := buildActiveSessionMessage clk.sec info
    .error (.activeSession msg.1 (some msg.2.1) (some msg.2.2))
  | none =>
    let sessionId := generateSessionId clk.date (st.sessions.map (fun r => r.id))
    if sessionId ∈ st.sessions.map (fun r => r.id) then
      .error (.runtime (chars ("Database error: UNIQUE constraint failed: sessions.id"))
        (some (chars ("Inspect database health with: ./cmos/cli.py db show current")))
        (some (chars ("Run ./cmos/cli.py db health to verify schema integrity."))))
    else
      let ts := clk.iso
      let row : SessionRow :=
        { id := sessionId, stype := cleanType, title := cleanTitle,
          sprintId := sprintId, startedAt := ts, completedAt := none,
          agent := agent, status := .active, captures := [], nextSteps := none,
          summary := none, metaDomain := metaDomain,
          metaProjectDomain := metaProjectDomain }
      let ev : SessionEventRec :=
        { ts := ts, agent := agent, mission := sessionId, action := chars ("start"),
          status := chars ("active"), summary := cleanTitle, nextHint := sprintId }
      let info : ActiveInfo :=
        { id := sessionId, stype := cleanType, title := cleanTitle, agent := agent,
          startedAt := ts, sprintId := sprintId, captures := [] }
      let working := { st.project.working with activeSession := some info }
      let working := recordSessionHistory working sessionId cleanType ts agent
        (chars ("Started ") ++ cleanTitle) (chars ("start"))
      let project := updateHealthP { st.project with working := working } ts true
      let master := updateHealthM st.master ts true
      .ok ({ sessions := st.sessions ++ [row], events := st.events ++ [ev],
             project := project, master := master }, sessionId)

/-- `context.strip() if context else None`. -/
def mkContextText (contextArg : Option PyStr) : Option PyStr :=
  match contextArg with
  | some c => if c = [] then none else some (pyStrip c)
  | none => none

/-- The per-row effect of `UPDATE sessions SET captures = … WHERE id = …`. -/
def appendCaptureRow (sid : PyStr) (cap : Capture) (r : SessionRow) : SessionRow :=
  if r.id = sid then { r with captures := r.captures ++ [captureToDict cap] } else r

/-- The per-row effect of the completing `UPDATE … WHERE id = …`. -/
def completeRow (sid completedAt summary : PyStr) (ns : Option (List PyStr))
    (r : SessionRow) : SessionRow :=
  if r.id = sid then
    { r with
      status := .completed, completedAt := some completedAt,
      summary := some summary, nextSteps := ns }
  else r

/-- `capture_insight`.  Validation, then inside the transaction the row
lookup with its two distinct lifecycle failures (rollback leaves the state
unchanged, modelled by returning the error without a new state), the
capture append and the event; afterwards the projection updates (cache
mirror, history, health on both documents). -/
def captureInsight (clk : Clock) (sessionId category content : PyStr)
    (contextArg : Option PyStr) (agent : PyStr)
    (st : MachineState) : Except SErr MachineState :=
  match normalize_capture_category category with
  | .error e => .error (.validation e)
  | .ok cleanCat =>
  match normalize_capture_content content with
  | .error e => .error (.validation e)
  | .ok cleanContent =>
  let contextText : Option PyStr := mkContextText contextArg
  let cap : Capture :=
    { timestamp := clk.iso, category := cleanCat, content := cleanContent,
      context := contextText }
  match st.sessions.find? (fun r => r.id = sessionId) with
  | none =>
    .error (.noActiveSession (sessionMissingMsg sessionId) none (some listSuggestion))
  | some row =>
    if row.status ≠ .active then
      .error (.activeSession (sessionNotActiveMsg sessionId)
        (some (chars ("Only active sessions accept new captures.")))
        (some (chars ("Resume or select another session with: ./cmos/cli.py session list"))))
    else
      let sessions := st.sessions.map (appendCaptureRow sessionId cap)
      let ev : SessionEventRec :=
        { ts := cap.timestamp, agent := agent, mission := sessionId,
          action := chars ("capture"), status := chars ("active"),
          summary := chars ("[") ++ cleanCat ++ chars ("] ") ++ cap.content,
          nextHint := cap.context }
      let active := st.project.working.activeSession
      let working :=
        match active with
        | some a =>
          if a.id = sessionId then
            { st.project.working with
              activeSession := some ({ a with captures := a.captures ++ [captureToDict cap] }) }
          else st.project.working
        | none => st.project.working
      let working := recordSessionHistory working sessionId
        (match active with | some a => a.stype | none => chars ("session"))
        cap.timestamp agent (chars ("Captured ") ++ cleanCat) (chars ("capture"))
      let project := updateHealthP { st.project with working := working } cap.timestamp false
      let master := updateHealthM st.master cap.timestamp false
      .ok { sessions := sessions, events := st.events ++ [ev],
            project := project, master := master }

/-- `complete_session`.  Validation, the same two lifecycle failures, then
the status transition and complete event, then the projection updates:
clear the pointer, history, fold captures into master, recent-session
entries (project limit 25, master limit 10), next-step recording, health
and persistence. -/
def completeSession (clk : Clock) (sessionId summary : PyStr)
    (nextSteps : Option (List PyStr)) (agent : PyStr)
    (st : MachineState) : Except SErr MachineState :=
  match normalize_summary summary with
  | .error e => .error (.validation e)
  | .ok cleanSummary =>
  match normalize_next_steps nextSteps with
  | .error e => .error (.validation e)
  | .ok cleanNextSteps =>
  let completedAt := clk.iso
  match st.sessions.find? (fun r => r.id = sessionId) with
  | none =>
    .error (.noActiveSession (sessionMissingMsg sessionId) none (some listSuggestion))
  | some row =>
    if row.status ≠ .active then
      .error (.activeSession (sessionNotActiveMsg sessionId)
        (some (chars ("Only active sessions can be completed.")))
        (some (chars ("Confirm session status via: ./cmos/cli.py session show ") ++ sessionId)))
    else
      let captures := row.captures
      let sessions := st.sessions.map (completeRow sessionId completedAt cleanSummary
        (if cleanNextSteps = [] then none else some cleanNextSteps))
      let ev : SessionEventRec :=
        { ts := completedAt, agent := agent, mission := sessionId,
          action := chars ("complete"), status := chars ("completed"),
          summary := cleanSummary,
          nextHint := if cleanNextSteps = [] then none
            else some (joinWith (chars ("; ")) cleanNextSteps) }
      let working :=
        match st.project.working.activeSession with
        | some a =>
          if a.id = sessionId then { st.project.working with activeSession := none }
          else st.project.working
        | none => st.project.working
      let working := recordSessionHistory working sessionId row.stype completedAt agent
        cleanSummary (chars ("complete"))
      let applied := applyCapturesToMaster st.master captures sessionId
      let entry := mkRecentEntry row.id row.stype row.title cleanSummary completedAt applied.2
      let working := { working with recentSessions := appendRecent working.recentSessions 25 entry }
      let master := { applied.1 with recentSessions := appendRecent applied.1.recentSessions 10 entry }
      let wm :=
        if cleanNextSteps ≠ [] then recordNextSteps working master sessionId cleanNextSteps
        else (working, master)
      let project := updateHealthP { st.project with working := wm.1 } completedAt true
      let master := updateHealthM wm.2 completedAt true
      .ok { sessions := sessions, events := st.events ++ [ev],
            project := project, master := master }

/-! ### Operation sequences -/

/-- One invocation of the public lifecycle API. -/
inductive Op
  | start (clk : Clock) (sessionType title agent : PyStr)
      (sprintId metaDomain metaProjectDomain : Option PyStr)
  | capture (clk : Clock) (sessionId category content : PyStr)
      (contextArg : Option PyStr) (agent : PyStr)
  | complete (clk : Clock) (sessionId summary : PyStr)
      (nextSteps : Option (List PyStr)) (agent : PyStr)

/-- Execute one operation; a raised error (transaction rollback / fail
before persistence) leaves the state unchanged. -/
def execOp (st : MachineState) (op : Op) : MachineState :=
  match op with
  | .start clk ty ti ag sp md mpd =>
    match startSession clk ty ti ag sp md mpd st with
    | .ok r => r.1
    | .error _ => st
  | .capture clk sid cat con ctx ag =>
    match captureInsight clk sid cat con ctx ag st with
    | .ok st' => st'
    | .error _ => st
  | .complete clk sid su ns ag =>
    match completeSession clk sid su ns ag st with
    | .ok st' => st'
    | .error _ => st

/-- Run a sequence of operations from the initial state. -/
def run (ops : List Op) : MachineState := ops.foldl execOp initState

/-! ### Historical view builder (`view_helpers.py`) -/

/-- `SESSION_FETCH_LIMIT`. -/
def SESSION_FETCH_LIMIT : Nat := 250

/-- The per-session dictionary `_load_sessions` hands to
`_aggregate_sessions` (`_rowid` is the SQLite rowid; `captures` and
`next_steps` are the deserialized stored sequences; `metadata` is modelled
by the two keys the builder consults). -/
structure LoadedSession where
  rowid : Nat
  id : PyStr
  stype : PyStr
  title : PyStr
  sprintId : Option PyStr
  startedAt : Option PyStr
  completedAt : Option PyStr
  summary : Option PyStr
  captures : List Capture
  nextSteps : List PyStr
  metaDomain : Option PyStr
  metaProjectDomain : Option PyStr
deriving DecidableEq, Repr

/-- `_with_session_reference` (view version): no trimming; a falsy
session id leaves the content untouched. -/
def withSessionReferenceV (content : PyStr) (sessionId : Option PyStr) : PyStr :=
  match sessionId with
  | none => content
  | some sid =>
    if sid = [] then content
    else if pyContains sid content then content
    else content ++ chars (" (from ") ++ sid ++ chars (")")

/-- Per-sprint tally of `_aggregate_sessions`. -/
structure SprintTally where
  sessions : Nat
  decisions : Nat
  learnings : Nat
  constraints : Nat
deriving DecidableEq, Repr

/-- A `recent_sessions` entry of the reconstructed view. -/
structure RecentView where
  id : PyStr
  sessionType : PyStr
  title : PyStr
  completedAt : Option PyStr
  sprintId : Option PyStr
  summary : Option PyStr
  captureCount : Nat
  captures : List (PyStr × Nat)
  domain : Option PyStr
deriving DecidableEq, Repr

/-- The `metrics` block of `_aggregate_sessions`. -/
structure AggMetrics where
  sessionCount : Nat
  sprintCount : Nat
  lastActivity : Option PyStr
  sessionsConsidered : Nat
deriving DecidableEq, Repr

/-- The value returned by `_aggregate_sessions`. -/
structure Aggregates where
  decisions : List PyStr
  learnings : List PyStr
  constraints : List PyStr
  contextNotes : List PyStr
  nextSteps : List PyStr
  captureTotals : List (PyStr × Nat)
  bySprint : List (PyStr × SprintTally)
  recentSessions : List RecentView
  asOf : Option PyStr
  metrics : AggMetrics
deriving DecidableEq, Repr

/-- Accumulator of the `_aggregate_sessions` fold (`constraint_seen` and
`sprint_ids` are Python sets, modelled as duplicate-free-by-construction
lists used only for membership). -/
structure AggAcc where
  decisions : List PyStr
  learnings : List PyStr
  constraints : List PyStr
  contextNotes : List PyStr
  nextSteps : List PyStr
  captureTotals : List (PyStr × Nat)
  constraintSeen : List PyStr
  bySprint : List (PyStr × SprintTally)
  recent : List RecentView
  lastActivity : Option PyStr
  sprintIds : List PyStr
deriving DecidableEq, Repr

/-- Empty accumulator. -/
def aggInit : AggAcc :=
  { decisions := [], learnings := [], constraints := [], contextNotes := [],
    nextSteps := [], captureTotals := [], constraintSeen := [], bySprint := [],
    recent := [], lastActivity := none, sprintIds := [] }

/-- One iteration of the inner capture loop of `_aggregate_sessions`;
the second component is the per-session `capture_counts` Counter. -/
def aggCaptureStep (sessionId : PyStr) (st : AggAcc × List (PyStr × Nat))
    (cap : Capture) : AggAcc × List (PyStr × Nat) :=
  let acc := st.1
  let category := pyLower (pyStrip cap.category)
  let content := pyStrip cap.content
  if content = [] ∨ category ∉ CAPTURE_CATEGORIES then st
  else
    let counts := bumpCount st.2 category
    let acc := { acc with captureTotals := bumpCount acc.captureTotals category }
    if category = chars ("decision") then
      ({ acc with decisions := acc.decisions ++ [withSessionReferenceV content (some sessionId)] }, counts)
    else if category = chars ("learning") then
      ({ acc with learnings := acc.learnings ++ [withSessionReferenceV content (some sessionId)] }, counts)
    else if category = chars ("constraint") then
      let normalized := pyLower content
      (if normalized ∉ acc.constraintSeen then
        { acc with constraints := acc.constraints ++ [content],
                   constraintSeen := acc.constraintSeen ++ [normalized] }
       else acc, counts)
    else if category = chars ("context") then
      ({ acc with contextNotes := acc.contextNotes ++ [content] }, counts)
    else -- "next-step": counted in the totals, no list append
      (acc, counts)

/-- `by_sprint` setdefault-and-increment. -/
def bumpSprint (l : List (PyStr × SprintTally)) (k : PyStr) (dec lea con : Nat) :
    List (PyStr × SprintTally) :=
  match l with
  | [] => [(k, { sessions := 1, decisions := dec, learnings := lea, constraints := con })]
  | (k', t) :: rest =>
    if k' = k then
      (k', { t with sessions := t.sessions + 1, decisions := t.decisions + dec,
                    learnings := t.learnings + lea, constraints := t.constraints + con }) :: rest
    else (k', t) :: bumpSprint rest k dec lea con

/-- Counter lookup with default 0 (`capture_counts.get(key, 0)`). -/
def countOf (counts : List (PyStr × Nat)) (k : PyStr) : Nat :=
  match counts.find? (fun kv => kv.1 = k) with
  | some kv => kv.2
  | none => 0

/-- One iteration of the outer session loop of `_aggregate_sessions`. -/
def aggSessionStep (acc : AggAcc) (s : LoadedSession) : AggAcc :=
  let sessionTs := pyOrS s.completedAt s.startedAt
  let lastActivity := pyOrS sessionTs acc.lastActivity
  let sprintId :=
    match s.sprintId with
    | some t => if t = [] then chars ("unspecified") else t
    | none => chars ("unspecified")
  let sprintIds := if sprintId ∈ acc.sprintIds then acc.sprintIds else acc.sprintIds ++ [sprintId]
  let folded := s.captures.foldl (aggCaptureStep s.id) ({ acc with lastActivity := lastActivity, sprintIds := sprintIds }, [])
  let acc := folded.1
  let captureCounts := folded.2
  let stepEntries := ((s.nextSteps.map pyStrip).filter (fun t => t ≠ [])).map
    (fun t => s.id ++ chars (": ") ++ t)
  let acc := { acc with nextSteps := acc.nextSteps ++ stepEntries }
  let bySprint := bumpSprint acc.bySprint sprintId
    (countOf captureCounts (chars ("decision")))
    (countOf captureCounts (chars ("learning")))
    (countOf captureCounts (chars ("constraint")))
  let acc := { acc with bySprint := bySprint }
  let rv : RecentView :=
    { id := s.id, sessionType := s.stype, title := s.title,
      completedAt := s.completedAt,
      sprintId := if sprintId = chars ("unspecified") then none else some sprintId,
      summary := s.summary,
      captureCount := captureCounts.foldl (fun a kv => a + kv.2) 0,
      captures := captureCounts.filter (fun kv => kv.2 ≠ 0),
      domain := s.metaDomain }
  { acc with recent := acc.recent ++ [rv] }

/-- `_aggregate_sessions`: the pure fold over the ordered completed-session
records. -/
def aggregateSessions (sessions : List LoadedSession) : Aggregates :=
  let acc := sessions.foldl aggSessionStep aggInit
  { decisions := acc.decisions
    learnings := acc.learnings
    constraints := acc.constraints
    contextNotes := acc.contextNotes
    nextSteps := takeLast 25 acc.nextSteps
    captureTotals := sortByKey (fun kv => kv.1) acc.captureTotals
    bySprint := sortByKey (fun kv => kv.1) acc.bySprint
    recentSessions := acc.recent.reverse.take SESSION_FETCH_LIMIT
    asOf := acc.lastActivity
    metrics := { sessionCount := sessions.length
                 sprintCount := (acc.sprintIds.filter (fun t => t ≠ chars ("unspecified"))).length
                 lastActivity := acc.lastActivity
                 sessionsConsidered := sessions.length } }

/-- `_normalize_timestamp`: parse (with `Z` folded to `+00:00`), convert to
UTC, drop sub-second precision, re-format with the `Z` suffix; `none`
models the raised `ContextViewError`. -/
def normalizeTimestamp (value : PyStr) : Option PyStr :=
  (parseIsoZ value).map formatEpochZ

/-- The payload `_normalize_as_of` returns. -/
structure AsOfPayload where
  timestamp : PyStr
  sessionId : Option PyStr
deriving DecidableEq, Repr

/-- `COALESCE(completed_at, started_at)` (SQL NULL coalescing, not Python
truthiness). -/
def sqlEff (r : SessionRow) : PyStr :=
  match r.completedAt with
  | some t => t
  | none => r.startedAt

/-- `_normalize_as_of`: a value whose upper-cased form starts with `PS-` is
resolved through the sessions table to that session's effective timestamp;
anything else is treated as a timestamp.  Errors (`ContextViewError`) carry
their message. -/
def normalizeAsOf (rows : List SessionRow) (asOfValue : PyStr) :
    Except PyStr AsOfPayload :=
  let candidate := pyStrip asOfValue
  if candidate = [] then .error (chars ("as_of value cannot be empty."))
  else if listStarts (chars ("PS-")) (pyUpper candidate) then
    match rows.find? (fun r => r.id = candidate) with
    | none => .error (chars ("Session ") ++ candidate ++ chars (" not found for as_of filter."))
    | some row =>
      let ts := sqlEff row
      if ts = [] then .error (chars ("Session ") ++ candidate ++ chars (" not found for as_of filter."))
      else
        match normalizeTimestamp ts with
        | none => .error (chars ("Invalid timestamp."))
        | some t => .ok { timestamp := t, sessionId := some candidate }
  else
    match normalizeTimestamp candidate with
    | none => .error (chars ("Invalid timestamp."))
    | some t => .ok { timestamp := t, sessionId := none }

/-- The SQL `WHERE` of `_load_sessions`:
`status = 'completed' AND COALESCE(completed_at, started_at) <= :as_of`
(a NULL coalesced timestamp never satisfies `<=`; machine rows always carry
`started_at`, so the coalesced value is total). -/
def sqlWhere (asOfTs : Option PyStr) (r : SessionRow) : Bool :=
  r.status = SessionStatus.completed &&
    (match asOfTs with
     | some ts => strLe (sqlEff r) ts
     | none => true)

/-- `ORDER BY COALESCE(completed_at, started_at)`: stable sort on the
effective timestamp. -/
def sortByEff (rows : List SessionRow) : List SessionRow :=
  sortByKey sqlEff rows

/-- The Python post-filter of `_load_sessions` on one row: the domain
filter, the redundant `<=` re-check, and the same-timestamp identifier
tie-break when `as_of` named a session. -/
def pyRowKeep (domain : Option PyStr) (asOf : Option AsOfPayload) (r : SessionRow) : Bool :=
  let rowDomain := pyOrS r.metaDomain r.metaProjectDomain
  let domainOk :=
    match domain with
    | none => true
    | some d =>
      match rowDomain with
      | some rd => if rd = [] then false else pyLower rd = pyLower d
      | none => false
  let sessionTs := pyOrS r.completedAt (some r.startedAt)
  let tsOk :=
    match asOf with
    | none => true
    | some payload =>
      match sessionTs with
      | some t => !(strLt payload.timestamp t)
      | none => true
  let tieOk :=
    match asOf with
    | none => true
    | some payload =>
      match payload.sessionId with
      | none => true
      | some refId =>
        if refId = [] then true
        else
          match sessionTs with
          | some t =>
            !(t = payload.timestamp && r.id ≠ [] && strLt refId r.id)
          | none => true
  domainOk && tsOk && tieOk

/-- Convert a surviving row into the dictionary handed to the aggregator
(the SQLite rowid is existentially row-identifying; the model numbers the
surviving rows). -/
def rowToLoaded (rowid : Nat) (r : SessionRow) : LoadedSession :=
  { rowid := rowid, id := r.id, stype := r.stype, title := r.title,
    sprintId := r.sprintId, startedAt := some r.startedAt,
    completedAt := r.completedAt, summary := r.summary,
    captures := r.captures,
    nextSteps := match r.nextSteps with | some l => l | none => [],
    metaDomain := r.metaDomain, metaProjectDomain := r.metaProjectDomain }

/-- Number a list of rows from a starting rowid. -/
def numberRows (start : Nat) : List SessionRow → List LoadedSession
  | [] => []
  | r :: rest => rowToLoaded start r :: numberRows (start + 1) rest

/-- `_load_sessions`: resolve `as_of`, run the SQL (filter, order, limit),
apply the Python post-filter, and return the surviving ordered sessions
together with the resolved timestamp. -/
def loadSessions (rows : List SessionRow) (asOf : Option PyStr)
    (domain : Option PyStr) (sessionLimit : Nat) :
    Except PyStr (List LoadedSession × Option PyStr) :=
  let payloadE : Except PyStr (Option AsOfPayload) :=
    match asOf with
    | none => .ok none
    | some v =>
      match normalizeAsOf rows v with
      | .error e => .error e
      | .ok p => .ok (some p)
  match payloadE with
  | .error e => .error e
  | .ok payload =>
    let asOfTs := payload.map (fun p => p.timestamp)
    let sqlRows := (sortByEff (rows.filter (sqlWhere asOfTs))).take (max 1 sessionLimit)
    let kept := sqlRows.filter (pyRowKeep domain payload)
    .ok (numberRows 1 kept, asOfTs)

/-! ## Shared lemmas -/

theorem pyTrimFront_length {α : Type} (cap : Nat) (l : List α) :
    (pyTrimFront cap l).length = min l.length cap := by
  unfold pyTrimFront
  split
  · rw [List.length_drop]; omega
  · omega

theorem pyTrimFront_suffix {α : Type} (cap : Nat) (l : List α) :
    pyTrimFront cap l <:+ l := by
  unfold pyTrimFront
  split
  · exact List.drop_suffix _ _
  · exact List.suffix_rfl

theorem pyTrimFront_le {α : Type} (cap : Nat) (l : List α) :
    (pyTrimFront cap l).length ≤ cap := by
  rw [pyTrimFront_length]; omega

theorem listStarts_iff (n h : PyStr) : listStarts n h = true ↔ n <+: h := by
  induction n generalizing h with
  | nil => simp [listStarts, List.nil_prefix]
  | cons a as ih =>
    cases h with
    | nil => simp [listStarts]
    | cons b bs =>
      simp only [listStarts, Bool.and_eq_true, decide_eq_true_eq, ih,
        List.cons_prefix_cons]

theorem pyContains_iff (n h : PyStr) : pyContains n h = true ↔ n <:+: h := by
  induction h with
  | nil =>
    simp only [pyContains, List.isEmpty_iff, List.infix_nil]
  | cons c rest ih =>
    simp only [pyContains, Bool.or_eq_true, listStarts_iff, ih,
      List.infix_cons_iff]

theorem pyContains_append_self (a b n : PyStr) :
    pyContains n (a ++ n ++ b) = true := by
  rw [pyContains_iff]
  exact List.infix_append a n b

/-! Order facts about `strLt`. -/

theorem strLt_irrefl (s : PyStr) : strLt s s = false := by
  induction s with
  | nil => rfl
  | cons a as ih => simp [strLt, ih]

theorem strLt_asymm {a b : PyStr} (h : strLt a b = true) : strLt b a = false := by
  induction a generalizing b with
  | nil =>
    cases b with
    | nil => simp [strLt] at h
    | cons x xs => rfl
  | cons x xs ih =>
    cases b with
    | nil => simp [strLt] at h
    | cons y ys =>
      simp only [strLt, Bool.or_eq_true, Bool.and_eq_true, decide_eq_true_eq] at h
      simp only [strLt, Bool.or_eq_false_iff, Bool.and_eq_false_iff,
        decide_eq_false_iff_not]
      rcases h with h | ⟨he, h⟩
      · exact ⟨by omega, Or.inl (by omega)⟩
      · exact ⟨by omega, Or.inr (ih h)⟩

theorem strLt_connex {a b : PyStr} (hne : strLt a b = false) (hne' : strLt b a = false) :
    a.map Char.toNat = b.map Char.toNat := by
  induction a generalizing b with
  | nil =>
    cases b with
    | nil => rfl
    | cons y ys => simp [strLt] at hne
  | cons x xs ih =>
    cases b with
    | nil => simp [strLt] at hne'
    | cons y ys =>
      simp only [strLt, Bool.or_eq_false_iff, Bool.and_eq_false_iff,
        decide_eq_false_iff_not] at hne hne'
      obtain ⟨h1, h2⟩ := hne
      obtain ⟨h3, h4⟩ := hne'
      have hxy : x.toNat = y.toNat := by omega
      rcases h2 with h2 | h2
      · omega
      · rcases h4 with h4 | h4
        · omega
        · simp only [List.map_cons, List.cons.injEq]
          exact ⟨hxy, ih h2 h4⟩

theorem charToNat_inj {c d : Char} (h : c.toNat = d.toNat) : c = d := by
  apply Char.ext
  have h2 : c.val.toBitVec.toNat = d.val.toBitVec.toNat := h
  cases hc : c.val; cases hd : d.val
  rw [hc, hd] at h2
  simp only at h2
  congr 1
  exact BitVec.eq_of_toNat_eq h2

theorem strLe_of_not_lt {a b : PyStr} (h : strLt b a = false) : strLe a b = true := by
  by_cases hab : strLt a b = true
  · simp [strLe, hab]
  · rw [Bool.not_eq_true] at hab
    have hmap := strLt_connex hab h
    have hab' : a = b :=
      List.map_injective_iff.mpr (fun c d hcd => charToNat_inj hcd) hmap
    simp [strLe, hab']

theorem strLe_not_lt {a b : PyStr} (h : strLe a b = true) : strLt b a = false := by
  simp only [strLe, Bool.or_eq_true, decide_eq_true_eq] at h
  rcases h with h | h
  · exact strLt_asymm h
  · subst h; exact strLt_irrefl a

/-! Facts about `pyStrip`: characters are classified by `Char.isWhitespace`;
a list is "stripped" when both its ends are non-whitespace. -/

theorem dropWhile_head_false {p : Char → Bool} {l : PyStr} {a : Char} {t : PyStr}
    (h : l.dropWhile p = a :: t) : p a = false := by
  induction l with
  | nil => simp [List.dropWhile] at h
  | cons x xs ih =>
    rw [List.dropWhile] at h
    cases hx : p x with
    | true =>
      rw [hx] at h
      exact ih h
    | false =>
      rw [hx] at h
      have h' : x :: xs = a :: t := h
      injection h' with h1 _
      rw [← h1]
      exact hx

theorem dropWhile_cons_false {p : Char → Bool} {a : Char} (t : PyStr)
    (h : p a = false) : (a :: t).dropWhile p = a :: t := by
  simp [List.dropWhile, h]

theorem dropWhile_dropWhile (p : Char → Bool) (l : PyStr) :
    (l.dropWhile p).dropWhile p = l.dropWhile p := by
  cases hd : l.dropWhile p with
  | nil => rfl
  | cons a t => exact dropWhile_cons_false t (dropWhile_head_false hd)

theorem dropWhile_length_le (p : Char → Bool) (l : PyStr) :
    (l.dropWhile p).length ≤ l.length := by
  induction l with
  | nil => simp [List.dropWhile]
  | cons a t ih =>
    rw [List.dropWhile]
    by_cases h : p a
    · simp only [h, if_pos]
      exact Nat.le_trans ih (by simp)
    · simp [h]

theorem selfDrop_head_false {p : Char → Bool} {l : PyStr} {a : Char} {t : PyStr}
    (hself : l.dropWhile p = l) (hl : l = a :: t) : p a = false := by
  subst hl
  cases h : p a with
  | false => rfl
  | true =>
    rw [List.dropWhile, h] at hself
    have hle := dropWhile_length_le p t
    have : (List.dropWhile p t).length = t.length + 1 := by
      have := congrArg List.length hself
      simpa using this
    omega

/-- `pyStrip` leaves no leading whitespace. -/
theorem pyStrip_noLead (s : PyStr) :
    (pyStrip s).dropWhile Char.isWhitespace = pyStrip s := by
  unfold pyStrip
  obtain ⟨w, hw⟩ :=
    List.dropWhile_suffix (l := (s.dropWhile Char.isWhitespace).reverse)
      Char.isWhitespace
  cases hv : ((s.dropWhile Char.isWhitespace).reverse.dropWhile Char.isWhitespace).reverse with
  | nil => simp [hv]
  | cons a t =>
    have h1 : ((s.dropWhile Char.isWhitespace).reverse.dropWhile Char.isWhitespace).reverse ++
        w.reverse = s.dropWhile Char.isWhitespace := by
      have := congrArg List.reverse hw
      rw [List.reverse_append, List.reverse_reverse] at this
      exact this
    rw [hv] at h1
    have hu : s.dropWhile Char.isWhitespace = a :: (t ++ w.reverse) := by
      rw [← h1]; simp
    have ha : Char.isWhitespace a = false :=
      selfDrop_head_false (dropWhile_dropWhile Char.isWhitespace s) hu
    exact dropWhile_cons_false t ha

/-- `pyStrip` leaves no trailing whitespace. -/
theorem pyStrip_noTrail (s : PyStr) :
    (pyStrip s).reverse.dropWhile Char.isWhitespace = (pyStrip s).reverse := by
  unfold pyStrip
  rw [List.reverse_reverse]
  exact dropWhile_dropWhile _ _

/-- A string clean at both ends is a `pyStrip` fixed point. -/
theorem strip_of_clean {l : PyStr}
    (h1 : l.dropWhile Char.isWhitespace = l)
    (h2 : l.reverse.dropWhile Char.isWhitespace = l.reverse) : pyStrip l = l := by
  unfold pyStrip
  rw [h1, h2, List.reverse_reverse]

theorem pyStrip_idem (s : PyStr) : pyStrip (pyStrip s) = pyStrip s :=
  strip_of_clean (pyStrip_noLead s) (pyStrip_noTrail s)

/-- Appending a tail whose last character is not whitespace to a non-empty
stripped string gives another `pyStrip` fixed point. -/
theorem pyStrip_append_fix {s d : PyStr} (hs : pyStrip s ≠ [])
    (hd : ∃ c t, d.reverse = c :: t ∧ Char.isWhitespace c = false) :
    pyStrip (pyStrip s ++ d) = pyStrip s ++ d := by
  apply strip_of_clean
  · obtain ⟨a, t, ha⟩ : ∃ a t, pyStrip s = a :: t := by
      cases h : pyStrip s with
      | nil => exact absurd h hs
      | cons a t => exact ⟨a, t, rfl⟩
    have haf : Char.isWhitespace a = false :=
      selfDrop_head_false (pyStrip_noLead s) ha
    rw [ha, List.cons_append]
    exact dropWhile_cons_false _ haf
  · obtain ⟨c, t, hc, hcf⟩ := hd
    rw [List.reverse_append, hc, List.cons_append]
    exact dropWhile_cons_false _ hcf

/-! ## Claim C10 — `normalize_next_steps` -/

theorem normalizeNextStepsGo_spec (notes : List PyStr) :
    (∀ out, normalizeNextStepsGo notes = .ok out →
      out = (notes.map pyStrip).filter (fun n => n ≠ []) ∧
        ∀ n ∈ out, n.length ≤ MAX_NEXT_STEP_LENGTH) ∧
    ((∃ e, normalizeNextStepsGo notes = .error e) ↔
      ∃ n ∈ notes, pyStrip n ≠ [] ∧ MAX_NEXT_STEP_LENGTH < (pyStrip n).length) := by
  induction notes with
  | nil =>
    constructor
    · intro out hout
      simp only [normalizeNextStepsGo] at hout
      injection hout with hout
      subst hout
      simp
    · simp [normalizeNextStepsGo]
  | cons raw rest ih =>
    obtain ⟨ihok, iherr⟩ := ih
    have hun : normalizeNextStepsGo (raw :: rest) =
        (if pyStrip raw = [] then normalizeNextStepsGo rest
         else if (pyStrip raw).length > MAX_NEXT_STEP_LENGTH then
           .error (chars ("next step \x27") ++ (pyStrip raw).take 25 ++
             chars ("...\x27 exceeds 500 characters."))
         else
           match normalizeNextStepsGo rest with
           | .error e => .error e
           | .ok cleaned => .ok (pyStrip raw :: cleaned)) := rfl
    by_cases h1 : pyStrip raw = []
    · rw [hun, if_pos h1]
      constructor
      · intro out hout
        obtain ⟨ho, hlen⟩ := ihok out hout
        refine ⟨?_, hlen⟩
        simp [List.filter, h1, ho]
      · rw [iherr]
        constructor
        · rintro ⟨n, hn, hne, hlen⟩; exact ⟨n, List.mem_cons_of_mem _ hn, hne, hlen⟩
        · rintro ⟨n, hn, hne, hlen⟩
          rcases List.mem_cons.mp hn with hn | hn
          · subst hn; exact absurd h1 hne
          · exact ⟨n, hn, hne, hlen⟩
    · by_cases h2 : (pyStrip raw).length > MAX_NEXT_STEP_LENGTH
      · rw [hun, if_neg h1, if_pos h2]
        constructor
        · intro out hout
          cases hout
        · constructor
          · rintro -
            exact ⟨raw, List.mem_cons_self _ _, h1, h2⟩
          · rintro -
            exact ⟨_, rfl⟩
      · rw [hun, if_neg h1, if_neg h2]
        cases hrest : normalizeNextStepsGo rest with
        | error e =>
          constructor
          · intro out hout
            cases hout
          · constructor
            · rintro -
              obtain ⟨n, hn, hne, hlen⟩ := iherr.mp ⟨e, hrest⟩
              exact ⟨n, List.mem_cons_of_mem _ hn, hne, hlen⟩
            · rintro -
              exact ⟨e, rfl⟩
        | ok cleaned =>
          obtain ⟨ho, hlen⟩ := ihok cleaned hrest
          constructor
          · intro out hout
            injection hout with hout
            subst hout
            constructor
            · simp only [List.map_cons, List.filter_cons]
              rw [if_pos (by simpa using h1)]
              rw [ho]
            · intro n hn
              rcases List.mem_cons.mp hn with hn | hn
              · subst hn; omega
              · exact hlen n hn
          · constructor
            · rintro ⟨e, he⟩
              cases he
            · rintro ⟨n, hn, hne, hlen'⟩
              rcases List.mem_cons.mp hn with hn | hn
              · subst hn; omega
              · obtain ⟨e, he⟩ := iherr.mpr ⟨n, hn, hne, hlen'⟩
                rw [he] at hrest
                cases hrest

/-- C10: `normalize_next_steps` trims every note, silently drops notes that
are empty after trimming, and fails (rather than truncating) exactly when
some surviving note exceeds the 500-character ceiling; on success the
result is precisely the non-empty trimmed notes, each within the
ceiling. -/
theorem normalize_next_steps_spec (notes : List PyStr) :
    (∀ out, normalize_next_steps (some notes) = .ok out →
      out = (notes.map pyStrip).filter (fun n => n ≠ []) ∧
        ∀ n ∈ out, n.length ≤ MAX_NEXT_STEP_LENGTH) ∧
    ((∃ e, normalize_next_steps (some notes) = .error e) ↔
      ∃ n ∈ notes, pyStrip n ≠ [] ∧ MAX_NEXT_STEP_LENGTH < (pyStrip n).length) := by
  by_cases hn : notes = []
  · subst hn
    constructor
    · intro out hout
      simp only [normalize_next_steps, if_pos] at hout
      injection hout with hout
      subst hout
      simp
    · simp [normalize_next_steps]
  · have : normalize_next_steps (some notes) = normalizeNextStepsGo notes := by
      simp [normalize_next_steps, hn]
    rw [this]
    exact normalizeNextStepsGo_spec notes

/-- Witness for C10 at a concrete input: the note list
`[" draft spec ", "  "]` normalizes to the single trimmed note. -/
theorem normalize_next_steps_spec_witness :
    [chars ("draft spec")] =
      (([chars (" draft spec "), chars ("  ")]).map pyStrip).filter (fun n => n ≠ []) ∧
      ∀ n ∈ [chars ("draft spec")], n.length ≤ MAX_NEXT_STEP_LENGTH :=
  (normalize_next_steps_spec [chars (" draft spec "), chars ("  ")]).1
    [chars ("draft spec")] rfl

/-! ## Claim C9 — session-reference annotation -/

theorem wsr_append_contains (cleaned sid : PyStr) :
    pyContains sid (cleaned ++ (chars (" (from ") ++ (sid ++ chars (")")))) = true := by
  have h := pyContains_append_self (cleaned ++ chars (" (from ")) (chars (")")) sid
  have he : cleaned ++ chars (" (from ") ++ sid ++ chars (")") =
      cleaned ++ (chars (" (from ") ++ (sid ++ chars (")"))) := by
    simp [List.append_assoc]
  rw [he] at h
  exact h

theorem wsr_reverse_shape (sid : PyStr) :
    ∃ c t, (chars (" (from ") ++ (sid ++ chars (")"))).reverse = c :: t ∧
      Char.isWhitespace c = false := by
  refine ⟨')', sid.reverse ++ (chars (" (from ")).reverse, ?_, by decide⟩
  simp [chars, List.reverse_append]

/-- C9: both `_with_session_reference` implementations append the
`(from …)` suffix exactly when the session identifier does not already
occur in the text, and re-applying the annotation never changes the result,
so no entry is ever double-annotated — in the live master fold and in view
reconstruction alike. -/
theorem with_session_reference_spec :
    (∀ content sid : PyStr,
      (pyContains sid (pyStrip content) = true →
        withSessionReference content sid = pyStrip content) ∧
      (pyStrip content ≠ [] → pyContains sid (pyStrip content) = false →
        withSessionReference content sid =
          pyStrip content ++ (chars (" (from ") ++ (sid ++ chars (")")))) ∧
      withSessionReference (withSessionReference content sid) sid =
        withSessionReference content sid) ∧
    (∀ content sid : PyStr,
      (pyContains sid content = true →
        withSessionReferenceV content (some sid) = content) ∧
      (sid ≠ [] → pyContains sid content = false →
        withSessionReferenceV content (some sid) =
          content ++ (chars (" (from ") ++ (sid ++ chars (")")))) ∧
      withSessionReferenceV (withSessionReferenceV content (some sid)) (some sid) =
        withSessionReferenceV content (some sid)) := by
  constructor
  · intro content sid
    refine ⟨?_, ?_, ?_⟩
    · intro h
      unfold withSessionReference
      by_cases hc : pyStrip content = []
      · simp [hc]
      · simp [hc, h, List.append_assoc]
    · intro hc hnc
      unfold withSessionReference
      simp [hc, hnc, List.append_assoc]
    · by_cases hc : pyStrip content = []
      · have h1 : withSessionReference content sid = [] := by
          unfold withSessionReference; simp [hc]
        rw [h1]
        unfold withSessionReference
        simp [pyStrip]
      · by_cases h2 : pyContains sid (pyStrip content) = true
        · have h1 : withSessionReference content sid = pyStrip content := by
            unfold withSessionReference; simp [hc, h2]
          rw [h1]
          unfold withSessionReference
          rw [pyStrip_idem]
          simp [hc, h2]
        · rw [Bool.not_eq_true] at h2
          have h1 : withSessionReference content sid =
              pyStrip content ++ (chars (" (from ") ++ (sid ++ chars (")"))) := by
            unfold withSessionReference
            simp [hc, h2, List.append_assoc]
          rw [h1]
          unfold withSessionReference
          rw [pyStrip_append_fix hc (wsr_reverse_shape sid)]
          have hne : pyStrip content ++ (chars (" (from ") ++ (sid ++ chars (")"))) ≠ [] := by
            simp [hc]
          rw [if_neg hne, if_pos (wsr_append_contains (pyStrip content) sid)]
  · intro content sid
    refine ⟨?_, ?_, ?_⟩
    · intro h
      unfold withSessionReferenceV
      by_cases hs : sid = []
      · simp [hs]
      · simp [hs, h]
    · intro hs hnc
      unfold withSessionReferenceV
      simp [hs, hnc, List.append_assoc]
    · by_cases hs : sid = []
      · have h1 : withSessionReferenceV content (some sid) = content := by
          unfold withSessionReferenceV; simp [hs]
        rw [h1, h1]
      · by_cases h2 : pyContains sid content = true
        · have h1 : withSessionReferenceV content (some sid) = content := by
            unfold withSessionReferenceV; simp [hs, h2]
          rw [h1, h1]
        · rw [Bool.not_eq_true] at h2
          have h1 : withSessionReferenceV content (some sid) =
              content ++ (chars (" (from ") ++ (sid ++ chars (")"))) := by
            unfold withSessionReferenceV
            simp [hs, h2, List.append_assoc]
          rw [h1]
          unfold withSessionReferenceV
          simp [hs, wsr_append_contains content sid]

/-- Witness for C9 at concrete inputs: annotating `"Use REST"` with session
`PS-2025-01-01-001` appends the suffix once; annotating the annotated text
again changes nothing. -/
theorem with_session_reference_spec_witness :
    withSessionReference (chars ("Use REST")) (chars ("PS-2025-01-01-001")) =
      pyStrip (chars ("Use REST")) ++
        (chars (" (from ") ++ (chars ("PS-2025-01-01-001") ++ chars (")"))) ∧
    withSessionReference
        (withSessionReference (chars ("Use REST")) (chars ("PS-2025-01-01-001")))
        (chars ("PS-2025-01-01-001")) =
      withSessionReference (chars ("Use REST")) (chars ("PS-2025-01-01-001")) :=
  ⟨((with_session_reference_spec.1 (chars ("Use REST")) (chars ("PS-2025-01-01-001"))).2.1
      (by decide) (by decide)),
   (with_session_reference_spec.1 (chars ("Use REST")) (chars ("PS-2025-01-01-001"))).2.2⟩

/-! ## Claim C4 — case-insensitive constraint deduplication -/

theorem constraintExists_iff (ex : List PyStr) (c : PyStr) :
    constraintExists ex c = true ↔
      ∃ e ∈ ex, pyLower (pyStrip e) = pyLower (pyStrip c) := by
  simp [constraintExists, List.any_eq_true]

theorem applyCaptureStep_constraints_of_exists (sid : PyStr)
    (st : MasterContext × List (PyStr × Nat)) (cap : Capture)
    (hex : constraintExists st.1.constraints (pyStrip cap.content) = true) :
    (applyCaptureStep sid st cap).1.constraints = st.1.constraints := by
  unfold applyCaptureStep
  by_cases h0 : pyStrip cap.content = [] ∨
      pyLower (pyStrip cap.category) ∉ CAPTURE_CATEGORIES
  · rw [if_pos h0]
  · rw [if_neg h0]
    dsimp only
    by_cases h1 : pyLower (pyStrip cap.category) = chars ("decision")
    · rw [if_pos h1]
      split <;> rfl
    · rw [if_neg h1]
      by_cases h2 : pyLower (pyStrip cap.category) = chars ("learning")
      · rw [if_pos h2]
        split <;> rfl
      · rw [if_neg h2]
        by_cases h3 : pyLower (pyStrip cap.category) = chars ("constraint")
        · rw [if_pos h3]
          have hnc : ¬ (pyStrip cap.content ≠ [] ∧
              ¬ constraintExists st.1.constraints (pyStrip cap.content) = true) := by
            intro h
            exact h.2 hex
          rw [if_neg hnc]
        · rw [if_neg h3]
          by_cases h4 : pyLower (pyStrip cap.category) = chars ("context")
          · rw [if_pos h4]
          · rw [if_neg h4]
            split <;> rfl

/-- The constraint-dedup invariant carried through the aggregation fold:
the emitted constraints are pairwise distinct modulo lower-casing, and the
seen-set tracks exactly their lower-cased forms. -/
def ConsInv (acc : AggAcc) : Prop :=
  (acc.constraints.map pyLower).Nodup ∧
    ∀ x, x ∈ acc.constraintSeen ↔ x ∈ acc.constraints.map pyLower

theorem aggCaptureStep_consInv (sid : PyStr) (st : AggAcc × List (PyStr × Nat))
    (cap : Capture) (h : ConsInv st.1) : ConsInv (aggCaptureStep sid st cap).1 := by
  obtain ⟨hnd, hiff⟩ := h
  unfold aggCaptureStep
  by_cases h0 : pyStrip cap.content = [] ∨
      pyLower (pyStrip cap.category) ∉ CAPTURE_CATEGORIES
  · rw [if_pos h0]
    exact ⟨hnd, hiff⟩
  · rw [if_neg h0]
    dsimp only
    by_cases h1 : pyLower (pyStrip cap.category) = chars ("decision")
    · rw [if_pos h1]
      exact ⟨hnd, hiff⟩
    · rw [if_neg h1]
      by_cases h2 : pyLower (pyStrip cap.category) = chars ("learning")
      · rw [if_pos h2]
        exact ⟨hnd, hiff⟩
      · rw [if_neg h2]
        by_cases h3 : pyLower (pyStrip cap.category) = chars ("constraint")
        · rw [if_pos h3]
          by_cases h5 : pyLower (pyStrip cap.content) ∈ st.1.constraintSeen
          · rw [if_neg (not_not_intro h5)]
            exact ⟨hnd, hiff⟩
          · rw [if_pos h5]
            refine ⟨?_, ?_⟩
            · simp only [List.map_append, List.map_cons, List.map_nil]
              rw [List.nodup_append]
              refine ⟨hnd, List.nodup_singleton _, ?_⟩
              intro x hx hx'
              simp only [List.mem_singleton] at hx'
              subst hx'
              exact h5 ((hiff _).mpr hx)
            · intro x
              simp only [List.mem_append, List.map_append, List.map_cons,
                List.map_nil, List.mem_singleton, hiff]
        · rw [if_neg h3]
          by_cases h4 : pyLower (pyStrip cap.category) = chars ("context")
          · rw [if_pos h4]
            exact ⟨hnd, hiff⟩
          · rw [if_neg h4]
            exact ⟨hnd, hiff⟩

theorem aggCaptureFold_consInv (sid : PyStr) (caps : List Capture) :
    ∀ st : AggAcc × List (PyStr × Nat), ConsInv st.1 →
      ConsInv (caps.foldl (aggCaptureStep sid) st).1 := by
  induction caps with
  | nil => intro st h; exact h
  | cons c rest ih =>
    intro st h
    exact ih _ (aggCaptureStep_consInv sid st c h)

theorem aggSessionStep_consInv (acc : AggAcc) (s : LoadedSession)
    (h : ConsInv acc) : ConsInv (aggSessionStep acc s) := by
  unfold aggSessionStep
  dsimp only
  exact aggCaptureFold_consInv s.id s.captures _ h

theorem aggFold_consInv (sessions : List LoadedSession) :
    ∀ acc, ConsInv acc → ConsInv (sessions.foldl aggSessionStep acc) := by
  induction sessions with
  | nil => intro acc h; exact h
  | cons s rest ih =>
    intro acc h
    exact ih _ (aggSessionStep_consInv acc s h)

/-- C4: a constraint capture whose text matches an already-present
constraint entry up to letter case adds no second entry — in the live
master aggregate at completion (`_apply_captures_to_master`) and in any
reconstructed aggregate, whose constraint list is pairwise distinct modulo
case. -/
theorem constraint_dedup_spec :
    (∀ (m : MasterContext) (cap : Capture) (sid : PyStr),
      (∃ e ∈ m.constraints, pyLower (pyStrip e) = pyLower (pyStrip cap.content)) →
      (applyCapturesToMaster m [cap] sid).1.constraints = m.constraints) ∧
    (∀ sessions : List LoadedSession,
      ((aggregateSessions sessions).constraints.map pyLower).Nodup) := by
  constructor
  · intro m cap sid hex
    have hex' : constraintExists m.constraints (pyStrip cap.content) = true := by
      rw [constraintExists_iff]
      obtain ⟨e, he, heq⟩ := hex
      exact ⟨e, he, by rw [pyStrip_idem]; exact heq⟩
    unfold applyCapturesToMaster
    rw [if_neg (by simp : ¬ ([cap] : List Capture) = [])]
    simp only [List.foldl_cons, List.foldl_nil]
    exact applyCaptureStep_constraints_of_exists sid (m, []) cap hex'
  · intro sessions
    have h := aggFold_consInv sessions aggInit ⟨by simp [aggInit], by simp [aggInit]⟩
    exact h.1

/-- Witness for C4: with `"must support 10k rps"` already present, the
differently-cased capture `"Must Support 10K RPS"` leaves the constraint
list unchanged. -/
theorem constraint_dedup_spec_witness :
    (applyCapturesToMaster
        { decisionsMade := [], learnings := [],
          constraints := [chars ("must support 10k rps")], contextNotes := [],
          whenWeResume := [], recentSessions := [], health := initHealth }
        [{ timestamp := chars ("2025-01-01T10:00:00Z"),
           category := chars ("constraint"),
           content := chars ("Must Support 10K RPS"), context := none }]
        (chars ("PS-2025-01-01-001"))).1.constraints =
      [chars ("must support 10k rps")] :=
  constraint_dedup_spec.1
    { decisionsMade := [], learnings := [],
      constraints := [chars ("must support 10k rps")], contextNotes := [],
      whenWeResume := [], recentSessions := [], health := initHealth }
    { timestamp := chars ("2025-01-01T10:00:00Z"),
      category := chars ("constraint"),
      content := chars ("Must Support 10K RPS"), context := none }
    (chars ("PS-2025-01-01-001"))
    ⟨chars ("must support 10k rps"), by decide⟩

/-! ## Claim C5 — the aggregation fold is a pure function of its ordered
input -/

/-- Forget the storage identity (SQLite rowid) of a loaded session,
keeping exactly the record content the fold is specified to consume. -/
def stripRowid (s : LoadedSession) : LoadedSession := { s with rowid := 0 }

theorem aggSessionStep_congr (acc : AggAcc) {a b : LoadedSession}
    (h : stripRowid a = stripRowid b) : aggSessionStep acc a = aggSessionStep acc b := by
  cases a; cases b
  simp only [stripRowid, LoadedSession.mk.injEq, true_and] at h
  obtain ⟨h1, h2, h3, h4, h5, h6, h7, h8, h9, h10, h11⟩ := h
  subst h1; subst h2; subst h3; subst h4; subst h5; subst h6
  subst h7; subst h8; subst h9; subst h10; subst h11
  rfl

/-- C5: `_aggregate_sessions` is a pure, deterministic function of the
ordered record content handed to it — two session lists that agree on every
field the fold reads (all but the storage rowid) aggregate to identical
output; in particular re-running the fold over the same completed-session
prefix yields byte-identical aggregates. -/
theorem aggregate_sessions_pure (s1 s2 : List LoadedSession)
    (h : s1.map stripRowid = s2.map stripRowid) :
    aggregateSessions s1 = aggregateSessions s2 := by
  have hlen : s1.length = s2.length := by
    have := congrArg List.length h
    simpa using this
  have hfold : ∀ acc, s1.foldl aggSessionStep acc = s2.foldl aggSessionStep acc := by
    clear hlen
    induction s1 generalizing s2 with
    | nil =>
      cases s2 with
      | nil => intro acc; rfl
      | cons b t2 => simp at h
    | cons a t1 ih =>
      cases s2 with
      | nil => simp at h
      | cons b t2 =>
        simp only [List.map_cons, List.cons.injEq] at h
        intro acc
        simp only [List.foldl_cons]
        rw [aggSessionStep_congr acc h.1]
        exact ih t2 h.2 (aggSessionStep acc b)
  unfold aggregateSessions
  rw [hfold aggInit, hlen]

/-- Witness for C5: the same completed-session record stored under two
different rowids aggregates identically. -/
theorem aggregate_sessions_pure_witness :
    aggregateSessions
        [{ rowid := 1, id := chars ("PS-2025-01-01-001"),
           stype := chars ("planning"), title := chars ("Design API"),
           sprintId := none, startedAt := some (chars ("2025-01-01T10:00:00Z")),
           completedAt := some (chars ("2025-01-01T11:00:00Z")),
           summary := some (chars ("done")),
           captures := [{ timestamp := chars ("2025-01-01T10:30:00Z"),
                          category := chars ("decision"),
                          content := chars ("Use REST"), context := none }],
           nextSteps := [], metaDomain := none, metaProjectDomain := none }] =
      aggregateSessions
        [{ rowid := 7, id := chars ("PS-2025-01-01-001"),
           stype := chars ("planning"), title := chars ("Design API"),
           sprintId := none, startedAt := some (chars ("2025-01-01T10:00:00Z")),
           completedAt := some (chars ("2025-01-01T11:00:00Z")),
           summary := some (chars ("done")),
           captures := [{ timestamp := chars ("2025-01-01T10:30:00Z"),
                          category := chars ("decision"),
                          content := chars ("Use REST"), context := none }],
           nextSteps := [], metaDomain := none, metaProjectDomain := none }] :=
  aggregate_sessions_pure _ _ rfl

/-! ## Machine invariant (backbone of C1 and C6) -/

/-- A session row has status `active`. -/
def isActiveRow (r : SessionRow) : Bool :=
  match r.status with
  | .active => true
  | .completed => false

/-- All stored session identifiers. -/
def sessionIds (st : MachineState) : List PyStr := st.sessions.map (fun r => r.id)

/-- Identifiers of the rows whose status is `active`. -/
def activeIds (st : MachineState) : List PyStr :=
  (st.sessions.filter isActiveRow).map (fun r => r.id)

/-- Identifier(s) held by the project document's active-session pointer. -/
def pointerIds (st : MachineState) : List PyStr :=
  match st.project.working.activeSession with
  | some a => [a.id]
  | none => []

/-- The inductive machine invariant: the active rows are exactly the
pointer's target, identifiers are unique, and every bounded list is at its
cap. -/
def Inv (st : MachineState) : Prop :=
  activeIds st = pointerIds st ∧
  (sessionIds st).Nodup ∧
  st.project.working.sessionHistory.length ≤ 50 ∧
  st.project.working.nextSteps.length ≤ 25 ∧
  st.master.whenWeResume.length ≤ 25 ∧
  st.project.working.recentSessions.length ≤ 25 ∧
  st.master.recentSessions.length ≤ 10

theorem inv_init : Inv initState := by
  refine ⟨rfl, ?_, ?_, ?_, ?_, ?_, ?_⟩ <;> simp [initState, sessionIds]

theorem filterMap_ids_of_preserve (l : List SessionRow) (g : SessionRow → SessionRow)
    (hid : ∀ r, (g r).id = r.id) (hst : ∀ r, (g r).status = r.status) :
    ((l.map g).filter isActiveRow).map (fun r => r.id) =
      (l.filter isActiveRow).map (fun r => r.id) ∧
    (l.map g).map (fun r => r.id) = l.map (fun r => r.id) := by
  induction l with
  | nil => exact ⟨rfl, rfl⟩
  | cons a t ih =>
    have hact : isActiveRow (g a) = isActiveRow a := by
      unfold isActiveRow; rw [hst]
    constructor
    · simp only [List.map_cons, List.filter_cons, hact]
      cases ha : isActiveRow a with
      | true => simp [ha, hid, ih.1]
      | false => simp [ha, ih.1]
    · simp only [List.map_cons, hid, ih.2]

theorem active_unique_of_ids {l : List SessionRow} {sid : PyStr}
    (hids : (l.filter isActiveRow).map (fun r => r.id) = [sid]) :
    ∀ r ∈ l, isActiveRow r = true → r.id = sid := by
  intro r hr ha
  have h1 : r ∈ l.filter isActiveRow := List.mem_filter.mpr ⟨hr, ha⟩
  have h2 : r.id ∈ (l.filter isActiveRow).map (fun r => r.id) :=
    List.mem_map_of_mem _ h1
  rw [hids] at h2
  simpa using h2

theorem filter_map_nil {l : List SessionRow} {g : SessionRow → SessionRow}
    (h : ∀ r ∈ l, isActiveRow (g r) = false) :
    (l.map g).filter isActiveRow = [] := by
  induction l with
  | nil => rfl
  | cons a t ih =>
    simp only [List.map_cons, List.filter_cons]
    rw [h a (List.mem_cons_self a t)]
    exact ih (fun r hr => h r (List.mem_cons_of_mem a hr))

theorem applyCaptureStep_resume_cases (sid : PyStr)
    (st : MasterContext × List (PyStr × Nat)) (cap : Capture) :
    (applyCaptureStep sid st cap).1.whenWeResume = st.1.whenWeResume ∨
      ∃ entry, (applyCaptureStep sid st cap).1.whenWeResume =
        pyTrimFront 25 (st.1.whenWeResume ++ [entry]) := by
  unfold applyCaptureStep
  by_cases h0 : pyStrip cap.content = [] ∨
      pyLower (pyStrip cap.category) ∉ CAPTURE_CATEGORIES
  · rw [if_pos h0]; left; rfl
  · rw [if_neg h0]
    dsimp only
    by_cases h1 : pyLower (pyStrip cap.category) = chars ("decision")
    · rw [if_pos h1]; left; split <;> rfl
    · rw [if_neg h1]
      by_cases h2 : pyLower (pyStrip cap.category) = chars ("learning")
      · rw [if_pos h2]; left; split <;> rfl
      · rw [if_neg h2]
        by_cases h3 : pyLower (pyStrip cap.category) = chars ("constraint")
        · rw [if_pos h3]; left; split <;> rfl
        · rw [if_neg h3]
          by_cases h4 : pyLower (pyStrip cap.category) = chars ("context")
          · rw [if_pos h4]; left; rfl
          · rw [if_neg h4]
            by_cases h5 : (sid ++ chars (": ") ++ pyStrip cap.content) ∈ st.1.whenWeResume
            · rw [if_neg (not_not_intro h5)]; left; rfl
            · rw [if_pos h5]
              right
              exact ⟨sid ++ chars (": ") ++ pyStrip cap.content, rfl⟩

theorem applyCaptureStep_resume_le (sid : PyStr)
    (st : MasterContext × List (PyStr × Nat)) (cap : Capture)
    (h : st.1.whenWeResume.length ≤ 25) :
    (applyCaptureStep sid st cap).1.whenWeResume.length ≤ 25 := by
  rcases applyCaptureStep_resume_cases sid st cap with hc | ⟨entry, hc⟩
  · rw [hc]; exact h
  · rw [hc]; exact pyTrimFront_le _ _

theorem applyCapturesFold_resume_le (sid : PyStr) (caps : List Capture) :
    ∀ st : MasterContext × List (PyStr × Nat), st.1.whenWeResume.length ≤ 25 →
      (caps.foldl (applyCaptureStep sid) st).1.whenWeResume.length ≤ 25 := by
  induction caps with
  | nil => intro st h; exact h
  | cons c rest ih =>
    intro st h
    exact ih _ (applyCaptureStep_resume_le sid st c h)

theorem applyCaptures_resume_le (m : MasterContext) (caps : List Capture) (sid : PyStr)
    (h : m.whenWeResume.length ≤ 25) :
    (applyCapturesToMaster m caps sid).1.whenWeResume.length ≤ 25 := by
  unfold applyCapturesToMaster
  by_cases hc : caps = []
  · rw [if_pos hc]; exact h
  · rw [if_neg hc]
    exact applyCapturesFold_resume_le sid caps (m, []) h

theorem recordNextSteps_bounds (w : ProjectWorking) (m : MasterContext) (sid : PyStr)
    (ns : List PyStr) (hw : w.nextSteps.length ≤ 25) (hm : m.whenWeResume.length ≤ 25) :
    (recordNextSteps w m sid ns).1.nextSteps.length ≤ 25 ∧
      (recordNextSteps w m sid ns).2.whenWeResume.length ≤ 25 := by
  unfold recordNextSteps
  dsimp only
  by_cases hc : ((ns.map pyStrip).filter (fun n => n ≠ [])) = []
  · rw [if_pos hc]
    exact ⟨hw, hm⟩
  · rw [if_neg hc]
    exact ⟨pyTrimFront_le _ _, pyTrimFront_le _ _⟩

theorem startSession_inv {clk : Clock} {ty ti ag : PyStr}
    {sp md mpd : Option PyStr} {st : MachineState} {r : MachineState × PyStr}
    (hr : startSession clk ty ti ag sp md mpd st = .ok r) (h : Inv st) : Inv r.1 := by
  obtain ⟨h1, h2, h3, h4, h5, h6, h7⟩ := h
  unfold startSession at hr
  cases hty : normalize_session_type ty with
  | error e => rw [hty] at hr; cases hr
  | ok cty =>
  rw [hty] at hr
  cases hti : normalize_title ti with
  | error e => rw [hti] at hr; cases hr
  | ok cti =>
  rw [hti] at hr
  cases hact : st.project.working.activeSession with
  | some info => rw [hact] at hr; cases hr
  | none =>
  rw [hact] at hr
  dsimp only at hr
  by_cases hmem : generateSessionId clk.date (st.sessions.map (fun r => r.id)) ∈
      st.sessions.map (fun r => r.id)
  · rw [if_pos hmem] at hr; cases hr
  · rw [if_neg hmem] at hr
    injection hr with hr
    subst hr
    have hptr : pointerIds st = [] := by
      unfold pointerIds
      rw [hact]
    have hfil : st.sessions.filter isActiveRow = [] := by
      have := h1
      unfold activeIds at this
      rw [hptr] at this
      exact List.map_eq_nil_iff.mp this
    refine ⟨?_, ?_, ?_, ?_, ?_, ?_, ?_⟩
    · unfold activeIds pointerIds
      dsimp only
      rw [List.filter_append, hfil]
      simp [updateHealthP, recordSessionHistory, isActiveRow]
    · unfold sessionIds
      dsimp only
      rw [List.map_append]
      simp only [List.map_cons, List.map_nil]
      rw [List.nodup_append]
      exact ⟨h2, List.nodup_singleton _, by
        intro x hx hx'
        simp only [List.mem_singleton] at hx'
        subst hx'
        exact hmem hx⟩
    · simp only [updateHealthP, recordSessionHistory]
      exact pyTrimFront_le _ _
    · simp only [updateHealthP, recordSessionHistory]
      exact h4
    · simp only [updateHealthM]
      exact h5
    · simp only [updateHealthP, recordSessionHistory]
      exact h6
    · simp only [updateHealthM]
      exact h7

theorem appendCaptureRow_pres (l : List SessionRow) (sid : PyStr) (cap : Capture) :
    ((l.map (appendCaptureRow sid cap)).filter isActiveRow).map (fun r => r.id) =
      (l.filter isActiveRow).map (fun r => r.id) ∧
    (l.map (appendCaptureRow sid cap)).map (fun r => r.id) = l.map (fun r => r.id) :=
  filterMap_ids_of_preserve l _
    (fun r => by unfold appendCaptureRow; split <;> rfl)
    (fun r => by unfold appendCaptureRow; split <;> rfl)

theorem completeRow_ids (l : List SessionRow) (sid ca su : PyStr)
    (ns : Option (List PyStr)) :
    (l.map (completeRow sid ca su ns)).map (fun r => r.id) = l.map (fun r => r.id) := by
  induction l with
  | nil => rfl
  | cons a t ih =>
    simp only [List.map_cons, ih]
    have : (completeRow sid ca su ns a).id = a.id := by
      unfold completeRow; split <;> rfl
    rw [this]

theorem captureInsight_inv {clk : Clock} {sid cat con : PyStr}
    {ctx : Option PyStr} {ag : PyStr} {st st' : MachineState}
    (hr : captureInsight clk sid cat con ctx ag st = .ok st') (h : Inv st) : Inv st' := by
  obtain ⟨h1, h2, h3, h4, h5, h6, h7⟩ := h
  unfold captureInsight at hr
  cases hcat : normalize_capture_category cat with
  | error e => rw [hcat] at hr; cases hr
  | ok ccat =>
  rw [hcat] at hr
  cases hcon : normalize_capture_content con with
  | error e => rw [hcon] at hr; cases hr
  | ok ccon =>
  rw [hcon] at hr
  dsimp only at hr
  cases hfind : st.sessions.find? (fun r => r.id = sid) with
  | none => rw [hfind] at hr; cases hr
  | some row =>
  rw [hfind] at hr
  dsimp only at hr
  by_cases hstat : row.status ≠ SessionStatus.active
  · rw [if_pos hstat] at hr; cases hr
  · rw [if_neg hstat] at hr
    injection hr with hr
    subst hr
    refine ⟨?_, ?_, ?_, ?_, ?_, ?_, ?_⟩
    · unfold activeIds pointerIds at h1 ⊢
      dsimp only
      rw [(appendCaptureRow_pres st.sessions sid _).1]
      rw [h1]
      cases hact : st.project.working.activeSession with
      | none => simp [updateHealthP, recordSessionHistory, hact]
      | some a =>
        by_cases ha : a.id = sid
        · simp [updateHealthP, recordSessionHistory, hact, ha]
        · simp [updateHealthP, recordSessionHistory, hact, ha]
    · unfold sessionIds at h2 ⊢
      dsimp only
      rw [(appendCaptureRow_pres st.sessions sid _).2]
      exact h2
    · simp only [updateHealthP, recordSessionHistory]
      exact pyTrimFront_le _ _
    · cases hact : st.project.working.activeSession with
      | none => simp only [updateHealthP, recordSessionHistory, hact]; exact h4
      | some a =>
        by_cases ha : a.id = sid
        · simp [updateHealthP, recordSessionHistory, hact, ha]
          exact h4
        · simp [updateHealthP, recordSessionHistory, hact, ha]
          exact h4
    · simp only [updateHealthM]
      exact h5
    · cases hact : st.project.working.activeSession with
      | none => simp only [updateHealthP, recordSessionHistory, hact]; exact h6
      | some a =>
        by_cases ha : a.id = sid
        · simp [updateHealthP, recordSessionHistory, hact, ha]
          exact h6
        · simp [updateHealthP, recordSessionHistory, hact, ha]
          exact h6
    · simp only [updateHealthM]
      exact h7

theorem recordNextSteps_fields (w : ProjectWorking) (m : MasterContext)
    (sid : PyStr) (ns : List PyStr) :
    (recordNextSteps w m sid ns).1.activeSession = w.activeSession ∧
    (recordNextSteps w m sid ns).1.sessionHistory = w.sessionHistory ∧
    (recordNextSteps w m sid ns).1.recentSessions = w.recentSessions ∧
    (recordNextSteps w m sid ns).2.recentSessions = m.recentSessions := by
  unfold recordNextSteps
  dsimp only
  split <;> exact ⟨rfl, rfl, rfl, rfl⟩

theorem applyCaptureStep_recents (sid : PyStr)
    (st : MasterContext × List (PyStr × Nat)) (cap : Capture) :
    (applyCaptureStep sid st cap).1.recentSessions = st.1.recentSessions := by
  unfold applyCaptureStep
  dsimp only
  split
  · rfl
  · split
    · split <;> rfl
    · split
      · split <;> rfl
      · split
        · split <;> rfl
        · split
          · rfl
          · split <;> rfl

theorem applyCaptures_recents (m : MasterContext) (caps : List Capture) (sid : PyStr) :
    (applyCapturesToMaster m caps sid).1.recentSessions = m.recentSessions := by
  have hfold : ∀ st : MasterContext × List (PyStr × Nat),
      (caps.foldl (applyCaptureStep sid) st).1.recentSessions = st.1.recentSessions := by
    induction caps with
    | nil => intro st; rfl
    | cons c rest ih =>
      intro st
      rw [List.foldl_cons, ih (applyCaptureStep sid st c),
        applyCaptureStep_recents sid st c]
  unfold applyCapturesToMaster
  split
  · rfl
  · exact hfold (m, [])

theorem completeSession_inv {clk : Clock} {sid su : PyStr} {ns : Option (List PyStr)}
    {ag : PyStr} {st st' : MachineState}
    (hr : completeSession clk sid su ns ag st = .ok st') (h : Inv st) : Inv st' := by
  obtain ⟨h1, h2, h3, h4, h5, h6, h7⟩ := h
  unfold completeSession at hr
  cases hsu : normalize_summary su with
  | error e => rw [hsu] at hr; cases hr
  | ok csu =>
  rw [hsu] at hr
  cases hns : normalize_next_steps ns with
  | error e => rw [hns] at hr; cases hr
  | ok cns =>
  rw [hns] at hr
  dsimp only at hr
  cases hfind : st.sessions.find? (fun r => r.id = sid) with
  | none => rw [hfind] at hr; cases hr
  | some row =>
  rw [hfind] at hr
  dsimp only at hr
  by_cases hstat : row.status ≠ SessionStatus.active
  · rw [if_pos hstat] at hr; cases hr
  · rw [if_neg hstat] at hr
    injection hr with hr
    subst hr
    have hrowid : row.id = sid := by
      have hpred := List.find?_some hfind
      simpa using hpred
    have hrowmem : row ∈ st.sessions := List.mem_of_find?_eq_some hfind
    have hrowst : row.status = SessionStatus.active := not_not.mp hstat
    have hrowact : isActiveRow row = true := by
      unfold isActiveRow
      rw [hrowst]
    have hidmem : row.id ∈ pointerIds st := by
      rw [← h1]
      unfold activeIds
      exact List.mem_map_of_mem _ (List.mem_filter.mpr ⟨hrowmem, hrowact⟩)
    cases hact : st.project.working.activeSession with
    | none =>
      exfalso
      unfold pointerIds at hidmem
      rw [hact] at hidmem
      simp at hidmem
    | some a =>
      have ha : a.id = sid := by
        unfold pointerIds at hidmem
        rw [hact] at hidmem
        simp only [List.mem_singleton] at hidmem
        rw [← hidmem, hrowid]
      have hids : (st.sessions.filter isActiveRow).map (fun r => r.id) = [sid] := by
        have := h1
        unfold activeIds pointerIds at this
        rw [hact] at this
        dsimp only at this
        rw [ha] at this
        exact this
      have hfilnil :
          (st.sessions.map (completeRow sid clk.iso csu
            (if cns = [] then none else some cns))).filter isActiveRow = [] := by
        apply filter_map_nil
        intro r hrm
        by_cases hid : r.id = sid
        · unfold completeRow
          rw [if_pos hid]
          rfl
        · unfold completeRow
          rw [if_neg hid]
          cases hra : isActiveRow r with
          | false => rfl
          | true => exact absurd (active_unique_of_ids hids r hrm hra) hid
      refine ⟨?_, ?_, ?_, ?_, ?_, ?_, ?_⟩
      · unfold activeIds pointerIds
        dsimp only
        rw [hfilnil]
        simp only [List.map_nil]
        rw [if_pos ha]
        by_cases hcns : cns = []
        · rw [if_neg (not_not_intro hcns)]
          simp [updateHealthP, recordSessionHistory]
        · rw [if_pos hcns]
          simp [updateHealthP, recordSessionHistory, (recordNextSteps_fields _ _ _ _).1]
      · unfold sessionIds
        dsimp only
        rw [completeRow_ids]
        exact h2
      · dsimp only
        rw [if_pos ha]
        by_cases hcns : cns = []
        · rw [if_neg (not_not_intro hcns)]
          simp only [updateHealthP, recordSessionHistory]
          exact pyTrimFront_le _ _
        · rw [if_pos hcns]
          simp only [updateHealthP, (recordNextSteps_fields _ _ _ _).2.1,
            recordSessionHistory]
          exact pyTrimFront_le _ _
      · dsimp only
        rw [if_pos ha]
        by_cases hcns : cns = []
        · rw [if_neg (not_not_intro hcns)]
          simp only [updateHealthP, recordSessionHistory]
          exact h4
        · rw [if_pos hcns]
          simp only [updateHealthP]
          refine (recordNextSteps_bounds _ _ _ _ ?_ ?_).1
          · simp only [recordSessionHistory]
            exact h4
          · exact applyCaptures_resume_le _ _ _ h5
      · dsimp only
        rw [if_pos ha]
        by_cases hcns : cns = []
        · rw [if_neg (not_not_intro hcns)]
          simp only [updateHealthM]
          exact applyCaptures_resume_le _ _ _ h5
        · rw [if_pos hcns]
          simp only [updateHealthM]
          refine (recordNextSteps_bounds _ _ _ _ ?_ ?_).2
          · simp only [recordSessionHistory]
            exact h4
          · exact applyCaptures_resume_le _ _ _ h5
      · dsimp only
        rw [if_pos ha]
        by_cases hcns : cns = []
        · rw [if_neg (not_not_intro hcns)]
          simp only [updateHealthP, recordSessionHistory]
          exact pyTrimFront_le _ _
        · rw [if_pos hcns]
          simp only [updateHealthP, (recordNextSteps_fields _ _ _ _).2.2.1,
            recordSessionHistory]
          exact pyTrimFront_le _ _
      · dsimp only
        rw [if_pos ha]
        by_cases hcns : cns = []
        · rw [if_neg (not_not_intro hcns)]
          simp only [updateHealthM]
          exact pyTrimFront_le _ _
        · rw [if_pos hcns]
          simp only [updateHealthM, (recordNextSteps_fields _ _ _ _).2.2.2]
          exact pyTrimFront_le _ _

theorem execOp_inv (st : MachineState) (op : Op) (h : Inv st) : Inv (execOp st op) := by
  cases op with
  | start clk ty ti ag sp md mpd =>
    unfold execOp
    dsimp only
    cases hr : startSession clk ty ti ag sp md mpd st with
    | error e => exact h
    | ok r => exact startSession_inv hr h
  | capture clk sid cat con ctx ag =>
    unfold execOp
    dsimp only
    cases hr : captureInsight clk sid cat con ctx ag st with
    | error e => exact h
    | ok st2 => exact captureInsight_inv hr h
  | complete clk sid su ns ag =>
    unfold execOp
    dsimp only
    cases hr : completeSession clk sid su ns ag st with
    | error e => exact h
    | ok st2 => exact completeSession_inv hr h

theorem run_inv (ops : List Op) : Inv (run ops) := by
  have hfold : ∀ st, Inv st → Inv (ops.foldl execOp st) := by
    induction ops with
    | nil => intro st h; exact h
    | cons o rest ih => intro st h; exact ih _ (execOp_inv st o h)
  exact hfold initState inv_init

/-! ## Claim C1 — at most one active session -/

/-- C1: after any sequence of start/capture/complete operations from the
initial state, at most one stored session has status `active`; and
`start_session` refuses to insert a new row whenever the project context's
active-session pointer is set, whatever the rest of the state. -/
theorem single_active_session :
    (∀ ops : List Op, ((run ops).sessions.filter isActiveRow).length ≤ 1) ∧
    (∀ (clk : Clock) (ty ti ag : PyStr) (sp md mpd : Option PyStr)
        (st : MachineState) (info : ActiveInfo),
      st.project.working.activeSession = some info →
      ∀ r, startSession clk ty ti ag sp md mpd st ≠ .ok r) := by
  constructor
  · intro ops
    have hinv := (run_inv ops).1
    unfold activeIds at hinv
    have hlen := congrArg List.length hinv
    rw [List.length_map] at hlen
    rw [hlen]
    unfold pointerIds
    cases (run ops).project.working.activeSession <;> simp
  · intro clk ty ti ag sp md mpd st info hact r he
    unfold startSession at he
    cases hty : normalize_session_type ty with
    | error e => rw [hty] at he; cases he
    | ok cty =>
      rw [hty] at he
      cases hti : normalize_title ti with
      | error e => rw [hti] at he; cases he
      | ok cti =>
        rw [hti] at he
        rw [hact] at he
        cases he

/-- Fixture: a clock instant used by witnesses. -/
def wClk : Clock :=
  { iso := chars ("2025-01-02T09:00:00Z"), date := chars ("2025-01-02"),
    sec := 1735808400 }

/-- Fixture: an active-session pointer entry. -/
def wInfo : ActiveInfo :=
  { id := chars ("PS-2025-01-01-001"), stype := chars ("planning"),
    title := chars ("Design API"), agent := chars ("assistant"),
    startedAt := chars ("2025-01-01T10:00:00Z"), sprintId := none,
    captures := [] }

/-- Fixture: a state whose project document points at an active session. -/
def wBlockedState : MachineState :=
  { initState with
    project := { working := { initState.project.working with
                   activeSession := some wInfo, sessionCount := 1 },
                 health := initHealth } }

/-- Witness for C1's refusal conjunct at a concrete blocked state. -/
theorem single_active_session_witness :
    startSession wClk (chars ("planning")) (chars ("Another")) (chars ("assistant"))
        none none none wBlockedState ≠
      .ok (initState, chars ("PS-2025-01-02-001")) :=
  single_active_session.2 wClk (chars ("planning")) (chars ("Another"))
    (chars ("assistant")) none none none wBlockedState wInfo rfl
    (initState, chars ("PS-2025-01-02-001"))

/-! ## Claim C6 — bounded lists -/

theorem getLast?_of_suffix {α : Type} {res l : List α} (h : res <:+ l)
    (hne : res ≠ []) : res.getLast? = l.getLast? := by
  obtain ⟨w, hw⟩ := h
  rw [← hw, List.getLast?_append]
  cases hres : res.getLast? with
  | none => exact absurd (List.getLast?_eq_none_iff.mp hres) hne
  | some v => rfl

/-- C6: the single bounding rule — append, then drop from the front while
the length exceeds the cap — always leaves at most `cap` entries, a suffix
of the appended sequence ending in the newest entry; consequently after any
operation sequence the session history holds at most 50 entries, pending
next-steps and the resume list at most 25, the project's recent-session
summaries at most 25 and the master's at most 10. -/
theorem bounded_lists_spec :
    (∀ (α : Type) (cap : Nat) (l : List α) (x : α),
      (pyTrimFront cap (l ++ [x])).length = min (l.length + 1) cap ∧
      pyTrimFront cap (l ++ [x]) <:+ l ++ [x] ∧
      (0 < cap → (pyTrimFront cap (l ++ [x])).getLast? = some x)) ∧
    (∀ ops : List Op,
      (run ops).project.working.sessionHistory.length ≤ 50 ∧
      (run ops).project.working.nextSteps.length ≤ 25 ∧
      (run ops).master.whenWeResume.length ≤ 25 ∧
      (run ops).project.working.recentSessions.length ≤ 25 ∧
      (run ops).master.recentSessions.length ≤ 10) := by
  constructor
  · intro α cap l x
    have hlen := pyTrimFront_length cap (l ++ [x])
    rw [List.length_append, List.length_singleton] at hlen
    refine ⟨hlen, pyTrimFront_suffix cap (l ++ [x]), ?_⟩
    intro hcap
    have hne : pyTrimFront cap (l ++ [x]) ≠ [] := by
      intro hnil
      rw [hnil] at hlen
      simp only [List.length_nil] at hlen
      omega
    rw [getLast?_of_suffix (pyTrimFront_suffix cap (l ++ [x])) hne,
      List.getLast?_append]
    rfl
  · intro ops
    obtain ⟨-, -, h3, h4, h5, h6, h7⟩ := run_inv ops
    exact ⟨h3, h4, h5, h6, h7⟩

/-- Witness for C6's capped-append conjunct at a concrete input. -/
theorem bounded_lists_spec_witness :
    (pyTrimFront 2 ([chars ("a"), chars ("b")] ++ [chars ("c")])).length =
        min ([chars ("a"), chars ("b")].length + 1) 2 ∧
      pyTrimFront 2 ([chars ("a"), chars ("b")] ++ [chars ("c")]) <:+
        [chars ("a"), chars ("b")] ++ [chars ("c")] ∧
      (pyTrimFront 2 ([chars ("a"), chars ("b")] ++ [chars ("c")])).getLast? =
        some (chars ("c")) :=
  ⟨(bounded_lists_spec.1 PyStr 2 [chars ("a"), chars ("b")] (chars ("c"))).1,
   (bounded_lists_spec.1 PyStr 2 [chars ("a"), chars ("b")] (chars ("c"))).2.1,
   (bounded_lists_spec.1 PyStr 2 [chars ("a"), chars ("b")] (chars ("c"))).2.2
     (by decide)⟩

/-! ## Claim C7 — capture never mutates the master insight lists -/

/-- C7: a successful `capture_insight` leaves every insight list of the
master context (decisions, learnings, constraints, context notes), its
resume list and its recent-session list untouched, while still refreshing
the master health metadata: the last-update stamp becomes the capture
timestamp, the size metric is recomputed from the document, and the session
counter is not incremented. -/
theorem capture_master_frame {clk : Clock} {sid cat con : PyStr}
    {ctx : Option PyStr} {ag : PyStr} {st st' : MachineState}
    (hr : captureInsight clk sid cat con ctx ag st = .ok st') :
    st'.master.decisionsMade = st.master.decisionsMade ∧
    st'.master.learnings = st.master.learnings ∧
    st'.master.constraints = st.master.constraints ∧
    st'.master.contextNotes = st.master.contextNotes ∧
    st'.master.whenWeResume = st.master.whenWeResume ∧
    st'.master.recentSessions = st.master.recentSessions ∧
    st'.master.health.lastUpdate = some clk.iso ∧
    st'.master.health.sessionsSinceReset = st.master.health.sessionsSinceReset ∧
    st'.master.health.sizeKb = masterSize st.master := by
  unfold captureInsight at hr
  cases hcat : normalize_capture_category cat with
  | error e => rw [hcat] at hr; cases hr
  | ok ccat =>
  rw [hcat] at hr
  cases hcon : normalize_capture_content con with
  | error e => rw [hcon] at hr; cases hr
  | ok ccon =>
  rw [hcon] at hr
  dsimp only at hr
  cases hfind : st.sessions.find? (fun r => r.id = sid) with
  | none => rw [hfind] at hr; cases hr
  | some row =>
  rw [hfind] at hr
  dsimp only at hr
  by_cases hstat : row.status ≠ SessionStatus.active
  · rw [if_pos hstat] at hr; cases hr
  · rw [if_neg hstat] at hr
    injection hr with hr
    subst hr
    exact ⟨rfl, rfl, rfl, rfl, rfl, rfl, rfl, rfl, rfl⟩

/-- Fixture: the clock of the first witness day. -/
def wClk1 : Clock :=
  { iso := chars ("2025-01-01T10:00:00Z"), date := chars ("2025-01-01"),
    sec := 1735725600 }

/-- Fixture: the state after starting one session from scratch. -/
def wStarted : MachineState :=
  execOp initState (Op.start wClk1 (chars ("planning")) (chars ("Design API"))
    (chars ("assistant")) none none none)

/-- Fixture: the state after capturing a decision into that session. -/
def wCaptured : MachineState :=
  match captureInsight wClk1 (chars ("PS-2025-01-01-001")) (chars ("decision"))
      (chars ("Use REST")) none (chars ("assistant")) wStarted with
  | .ok s => s
  | .error _ => initState

/-- Witness for C7: a concrete successful capture leaves the master insight
lists untouched and stamps the master health block. -/
theorem capture_master_frame_witness :
    wCaptured.master.decisionsMade = wStarted.master.decisionsMade ∧
    wCaptured.master.learnings = wStarted.master.learnings ∧
    wCaptured.master.constraints = wStarted.master.constraints ∧
    wCaptured.master.contextNotes = wStarted.master.contextNotes ∧
    wCaptured.master.whenWeResume = wStarted.master.whenWeResume ∧
    wCaptured.master.recentSessions = wStarted.master.recentSessions ∧
    wCaptured.master.health.lastUpdate = some wClk1.iso ∧
    wCaptured.master.health.sessionsSinceReset =
      wStarted.master.health.sessionsSinceReset ∧
    wCaptured.master.health.sizeKb = masterSize wStarted.master :=
  @capture_master_frame wClk1 (chars ("PS-2025-01-01-001")) (chars ("decision"))
    (chars ("Use REST")) none (chars ("assistant")) wStarted wCaptured rfl

/-! ## Claim C3 — distinguishable lifecycle-conflict errors -/

theorem stale_ne_fresh (sid r : PyStr) : staleMessage sid r ≠ freshMessage sid := by
  intro h
  unfold staleMessage freshMessage at h
  rw [List.append_assoc, List.append_assoc, List.append_assoc,
    List.append_assoc] at h
  have h1 := List.append_cancel_left h
  have h2 := List.append_cancel_left h1
  have hc2 : chars (" has been idle for ") =
      ' ' :: 'h' :: chars ("as been idle for ") := rfl
  have hc4 : chars (" exists. Use \x27session resume\x27 to continue or \x27session complete\x27 to finish it before starting another.") =
      ' ' :: 'e' :: chars ("xists. Use \x27session resume\x27 to continue or \x27session complete\x27 to finish it before starting another.") := rfl
  rw [hc2, hc4] at h2
  rw [List.cons_append, List.cons_append] at h2
  injection h2 with hsp h3
  injection h3 with hch _
  exact absurd hch (by decide)

/-- C3: every lifecycle-rule violation surfaces as a conflict error whose
cause the caller can branch on — `ActiveSessionError` for an
already-active start or a present-but-not-active target,
`NoActiveSessionError` for a missing target — never a validation error and
never a silent success, with the failed operation leaving the state
untouched; and the already-active message distinguishes a stale blocking
session from a fresh one. -/
theorem lifecycle_error_spec :
    (∀ (clk : Clock) (ty ti ag : PyStr) (sp md mpd : Option PyStr)
        (st : MachineState) (info : ActiveInfo) (cty cti : PyStr),
      normalize_session_type ty = .ok cty →
      normalize_title ti = .ok cti →
      st.project.working.activeSession = some info →
      startSession clk ty ti ag sp md mpd st =
        .error (.activeSession (buildActiveSessionMessage clk.sec info).1
          (some (buildActiveSessionMessage clk.sec info).2.1)
          (some (buildActiveSessionMessage clk.sec info).2.2))) ∧
    (∀ (clk : Clock) (sid cat con : PyStr) (ctx : Option PyStr) (ag : PyStr)
        (st : MachineState) (ccat ccon : PyStr),
      normalize_capture_category cat = .ok ccat →
      normalize_capture_content con = .ok ccon →
      st.sessions.find? (fun r => r.id = sid) = none →
      captureInsight clk sid cat con ctx ag st =
        .error (.noActiveSession (sessionMissingMsg sid) none (some listSuggestion))) ∧
    (∀ (clk : Clock) (sid cat con : PyStr) (ctx : Option PyStr) (ag : PyStr)
        (st : MachineState) (row : SessionRow) (ccat ccon : PyStr),
      normalize_capture_category cat = .ok ccat →
      normalize_capture_content con = .ok ccon →
      st.sessions.find? (fun r => r.id = sid) = some row →
      row.status = SessionStatus.completed →
      captureInsight clk sid cat con ctx ag st =
        .error (.activeSession (sessionNotActiveMsg sid)
          (some (chars ("Only active sessions accept new captures.")))
          (some (chars ("Resume or select another session with: ./cmos/cli.py session list"))))) ∧
    (∀ (clk : Clock) (sid su : PyStr) (ns : Option (List PyStr)) (ag : PyStr)
        (st : MachineState) (csu : PyStr) (cns : List PyStr),
      normalize_summary su = .ok csu →
      normalize_next_steps ns = .ok cns →
      st.sessions.find? (fun r => r.id = sid) = none →
      completeSession clk sid su ns ag st =
        .error (.noActiveSession (sessionMissingMsg sid) none (some listSuggestion))) ∧
    (∀ (clk : Clock) (sid su : PyStr) (ns : Option (List PyStr)) (ag : PyStr)
        (st : MachineState) (row : SessionRow) (csu : PyStr) (cns : List PyStr),
      normalize_summary su = .ok csu →
      normalize_next_steps ns = .ok cns →
      st.sessions.find? (fun r => r.id = sid) = some row →
      row.status = SessionStatus.completed →
      completeSession clk sid su ns ag st =
        .error (.activeSession (sessionNotActiveMsg sid)
          (some (chars ("Only active sessions can be completed.")))
          (some (chars ("Confirm session status via: ./cmos/cli.py session show ") ++ sid)))) ∧
    ((∀ (clk : Clock) (ty ti ag : PyStr) (sp md mpd : Option PyStr)
        (st : MachineState) (e : SErr),
      startSession clk ty ti ag sp md mpd st = .error e →
      execOp st (Op.start clk ty ti ag sp md mpd) = st) ∧
     (∀ (clk : Clock) (sid cat con : PyStr) (ctx : Option PyStr) (ag : PyStr)
        (st : MachineState) (e : SErr),
      captureInsight clk sid cat con ctx ag st = .error e →
      execOp st (Op.capture clk sid cat con ctx ag) = st) ∧
     (∀ (clk : Clock) (sid su : PyStr) (ns : Option (List PyStr)) (ag : PyStr)
        (st : MachineState) (e : SErr),
      completeSession clk sid su ns ag st = .error e →
      execOp st (Op.complete clk sid su ns ag) = st)) ∧
    ((∀ (m1 : PyStr) (h1 s1 : Option PyStr) (m2 : PyStr),
        SErr.activeSession m1 h1 s1 ≠ SErr.validation m2) ∧
     (∀ (m1 : PyStr) (h1 s1 : Option PyStr) (m2 : PyStr),
        SErr.noActiveSession m1 h1 s1 ≠ SErr.validation m2) ∧
     (∀ (m1 : PyStr) (h1 s1 : Option PyStr) (m2 : PyStr) (h2 s2 : Option PyStr),
        SErr.activeSession m1 h1 s1 ≠ SErr.noActiveSession m2 h2 s2)) ∧
    (∀ (sid r : PyStr), staleMessage sid r ≠ freshMessage sid) ∧
    (∀ (nowSec : Int) (info : ActiveInfo),
      ((detect_stale_session nowSec (some info.startedAt)
          STALE_SESSION_THRESHOLD_HOURS).1 = true →
        ∃ rd, (buildActiveSessionMessage nowSec info).1 =
          staleMessage (if info.id = [] then chars ("(unknown)") else info.id) rd) ∧
      ((detect_stale_session nowSec (some info.startedAt)
          STALE_SESSION_THRESHOLD_HOURS).1 = false →
        (buildActiveSessionMessage nowSec info).1 =
          freshMessage (if info.id = [] then chars ("(unknown)") else info.id))) := by
  refine ⟨?_, ?_, ?_, ?_, ?_, ⟨?_, ?_, ?_⟩, ⟨?_, ?_, ?_⟩, stale_ne_fresh, ?_⟩
  · intro clk ty ti ag sp md mpd st info cty cti hty hti hact
    unfold startSession
    rw [hty, hti, hact]
  · intro clk sid cat con ctx ag st ccat ccon hcat hcon hfind
    unfold captureInsight
    rw [hcat, hcon]
    dsimp only
    rw [hfind]
  · intro clk sid cat con ctx ag st row ccat ccon hcat hcon hfind hrow
    unfold captureInsight
    rw [hcat, hcon]
    dsimp only
    rw [hfind]
    dsimp only
    rw [if_pos (by rw [hrow]; intro hx; cases hx)]
  · intro clk sid su ns ag st csu cns hsu hns hfind
    unfold completeSession
    rw [hsu, hns]
    dsimp only
    rw [hfind]
  · intro clk sid su ns ag st row csu cns hsu hns hfind hrow
    unfold completeSession
    rw [hsu, hns]
    dsimp only
    rw [hfind]
    dsimp only
    rw [if_pos (by rw [hrow]; intro hx; cases hx)]
  · intro clk ty ti ag sp md mpd st e he
    unfold execOp
    dsimp only
    rw [he]
  · intro clk sid cat con ctx ag st e he
    unfold execOp
    dsimp only
    rw [he]
  · intro clk sid su ns ag st e he
    unfold execOp
    dsimp only
    rw [he]
  · intro m1 h1 s1 m2 h
    cases h
  · intro m1 h1 s1 m2 h
    cases h
  · intro m1 h1 s1 m2 h2 s2 h
    cases h
  · intro nowSec info
    unfold buildActiveSessionMessage
    constructor
    · intro hst
      dsimp only
      rw [hst]
      exact ⟨_, by rw [if_pos rfl]⟩
    · intro hst
      dsimp only
      rw [hst]
      simp

/-- Witness for C3: the concrete blocked start, missing-session capture and
completed-session capture each produce their distinguishing error. -/
theorem lifecycle_error_spec_witness :
    startSession wClk (chars ("planning")) (chars ("Another")) (chars ("assistant"))
        none none none wBlockedState =
      .error (.activeSession (buildActiveSessionMessage wClk.sec wInfo).1
        (some (buildActiveSessionMessage wClk.sec wInfo).2.1)
        (some (buildActiveSessionMessage wClk.sec wInfo).2.2)) ∧
    captureInsight wClk (chars ("PS-2099-01-01-001")) (chars ("decision"))
        (chars ("x")) none (chars ("assistant")) initState =
      .error (.noActiveSession (sessionMissingMsg (chars ("PS-2099-01-01-001")))
        none (some listSuggestion)) :=
  ⟨lifecycle_error_spec.1 wClk (chars ("planning")) (chars ("Another"))
      (chars ("assistant")) none none none wBlockedState wInfo
      (chars ("planning")) (chars ("Another")) rfl rfl rfl,
   lifecycle_error_spec.2.1 wClk (chars ("PS-2099-01-01-001")) (chars ("decision"))
      (chars ("x")) none (chars ("assistant")) initState
      (chars ("decision")) (chars ("x")) rfl rfl rfl⟩

/-! ## Claim C2 — session-identifier generation -/

theorem natCharsAux_irrel (f1 : Nat) : ∀ (f2 n : Nat), n < f1 → n < f2 →
    natCharsAux f1 n = natCharsAux f2 n := by
  induction f1 with
  | zero => intro f2 n h1 _; omega
  | succ f ih =>
    intro f2 n h1 h2
    cases f2 with
    | zero => omega
    | succ g =>
      unfold natCharsAux
      by_cases h10 : n < 10
      · rw [if_pos h10, if_pos h10]
      · rw [if_neg h10, if_neg h10]
        have hdiv : n / 10 < n := Nat.div_lt_self (by omega) (by omega)
        congr 1
        exact ih g (n / 10) (by omega) (by omega)

theorem natChars_eq (n : Nat) :
    natChars n = if n < 10 then [Nat.digitChar n]
      else natChars (n / 10) ++ [Nat.digitChar (n % 10)] := by
  unfold natChars
  by_cases h10 : n < 10
  · unfold natCharsAux
    rw [if_pos h10, if_pos h10]
  · have hdiv : n / 10 < n := Nat.div_lt_self (by omega) (by omega)
    unfold natCharsAux
    rw [if_neg h10, if_neg h10]
    congr 1
    exact natCharsAux_irrel n (n / 10 + 1) (n / 10) (by omega) (by omega)

theorem natChars_digits3 (n : Nat) :
    (n < 10 → natChars n = [Nat.digitChar n]) ∧
    (10 ≤ n → n < 100 →
      natChars n = [Nat.digitChar (n / 10), Nat.digitChar (n % 10)]) ∧
    (100 ≤ n → n ≤ 999 →
      natChars n = [Nat.digitChar (n / 100), Nat.digitChar (n / 10 % 10),
        Nat.digitChar (n % 10)]) := by
  refine ⟨?_, ?_, ?_⟩
  · intro h
    rw [natChars_eq, if_pos h]
  · intro h1 h2
    rw [natChars_eq, if_neg (by omega)]
    rw [natChars_eq, if_pos (by omega)]
    rfl
  · intro h1 h2
    rw [natChars_eq, if_neg (by omega)]
    rw [natChars_eq, if_neg (by omega)]
    rw [natChars_eq, if_pos (by omega)]
    have e1 : n / 10 / 10 = n / 100 := by omega
    have e2 : n / 10 % 10 = n / 10 % 10 := rfl
    rw [e1]
    rfl

theorem pad3_eq {n : Nat} (h : n ≤ 999) :
    pad3 n = [Nat.digitChar (n / 100), Nat.digitChar (n / 10 % 10),
      Nat.digitChar (n % 10)] := by
  unfold pad3
  by_cases h1 : n < 10
  · rw [(natChars_digits3 n).1 h1]
    have e1 : n / 100 = 0 := by omega
    have e2 : n / 10 % 10 = 0 := by omega
    have e3 : n % 10 = n := by omega
    rw [e1, e2, e3]
    rfl
  · by_cases h2 : n < 100
    · rw [(natChars_digits3 n).2.1 (by omega) h2]
      have e1 : n / 100 = 0 := by omega
      have e2 : n / 10 % 10 = n / 10 := by omega
      rw [e1, e2]
      rfl
    · rw [(natChars_digits3 n).2.2 (by omega) h]
      rfl

theorem digitChar_mono :
    ∀ x < 10, ∀ y < 10,
      ((Nat.digitChar x).toNat < (Nat.digitChar y).toNat ↔ x < y) := by decide

theorem digitChar_inj :
    ∀ x < 10, ∀ y < 10,
      ((Nat.digitChar x).toNat = (Nat.digitChar y).toNat ↔ x = y) := by decide

theorem digitChar_isDigit : ∀ x < 10, (Nat.digitChar x).isDigit = true := by decide

theorem digitChar_toNat : ∀ x < 10, (Nat.digitChar x).toNat = 48 + x := by decide

theorem digitChar_ne_dash : ∀ x < 10, ¬ (Nat.digitChar x = '-') := by decide

theorem strLt_pad3_iff {j k : Nat} (hj : j ≤ 999) (hk : k ≤ 999) :
    (strLt (pad3 j) (pad3 k) = true ↔ j < k) := by
  rw [pad3_eq hj, pad3_eq hk]
  simp only [strLt, Bool.or_eq_true, Bool.and_eq_true, decide_eq_true_eq]
  rw [digitChar_mono (j / 100) (by omega) (k / 100) (by omega),
    digitChar_inj (j / 100) (by omega) (k / 100) (by omega),
    digitChar_mono (j / 10 % 10) (by omega) (k / 10 % 10) (by omega),
    digitChar_inj (j / 10 % 10) (by omega) (k / 10 % 10) (by omega),
    digitChar_mono (j % 10) (by omega) (k % 10) (by omega),
    digitChar_inj (j % 10) (by omega) (k % 10) (by omega)]
  constructor
  · intro h
    rcases h with h | ⟨h1, h⟩
    · omega
    · rcases h with h | ⟨h2, h⟩
      · omega
      · rcases h with h | ⟨h3, h⟩
        · omega
        · simp [strLt] at h
  · intro h
    by_cases c1 : j / 100 < k / 100
    · exact Or.inl c1
    · have e1 : j / 100 = k / 100 := by omega
      by_cases c2 : j / 10 % 10 < k / 10 % 10
      · exact Or.inr ⟨e1, Or.inl c2⟩
      · have e2 : j / 10 % 10 = k / 10 % 10 := by omega
        exact Or.inr ⟨e1, Or.inr ⟨e2, Or.inl (by omega)⟩⟩

theorem takeWhile_append_all {p : Char → Bool} (u : PyStr) (v : Char) (w : PyStr)
    (hu : ∀ c ∈ u, p c = true) (hv : p v = false) :
    (u ++ v :: w).takeWhile p = u := by
  induction u with
  | nil => simp [List.takeWhile, hv]
  | cons a t ih =>
    rw [List.cons_append, List.takeWhile]
    rw [hu a (List.mem_cons_self a t)]
    rw [ih (fun c hc => hu c (List.mem_cons_of_mem a hc))]

theorem lastDashChunk_pad3 (datePart : PyStr) {k : Nat} (hk : k ≤ 999) :
    lastDashChunk ((chars ("PS-") ++ datePart ++ chars ("-")) ++ pad3 k) = pad3 k := by
  unfold lastDashChunk
  have hdash : chars ("-") = ['-'] := rfl
  rw [List.reverse_append]
  rw [show (chars ("PS-") ++ datePart ++ chars ("-")).reverse =
      '-' :: (datePart.reverse ++ (chars ("PS-")).reverse) from by
    rw [hdash, List.reverse_append, List.reverse_append]
    rfl]
  rw [takeWhile_append_all ((pad3 k).reverse) '-'
    (datePart.reverse ++ (chars ("PS-")).reverse) ?hu (by decide)]
  · rw [List.reverse_reverse]
  case hu =>
    intro c hc
    rw [List.mem_reverse] at hc
    rw [pad3_eq hk] at hc
    simp only [List.mem_cons, List.mem_singleton] at hc
    rcases hc with hc | hc | hc | hc
    · subst hc
      simpa using digitChar_ne_dash (k / 100) (by omega)
    · subst hc
      simpa using digitChar_ne_dash (k / 10 % 10) (by omega)
    · subst hc
      simpa using digitChar_ne_dash (k % 10) (by omega)
    · cases hc

theorem pyInt?_pad3 {k : Nat} (hk : k ≤ 999) : pyInt? (pad3 k) = some k := by
  rw [pad3_eq hk]
  unfold pyInt?
  rw [if_neg (by simp)]
  rw [if_pos (by
    simp only [List.all_cons, List.all_nil, Bool.and_eq_true]
    exact ⟨digitChar_isDigit (k / 100) (by omega),
      digitChar_isDigit (k / 10 % 10) (by omega),
      digitChar_isDigit (k % 10) (by omega), trivial⟩)]
  congr 1
  simp only [List.foldl_cons, List.foldl_nil]
  rw [digitChar_toNat (k / 100) (by omega), digitChar_toNat (k / 10 % 10) (by omega),
    digitChar_toNat (k % 10) (by omega)]
  omega

theorem listStarts_self_append (l r : PyStr) : listStarts l (l ++ r) = true := by
  rw [listStarts_iff]
  exact List.prefix_append l r

theorem sqlLikeMatch_self (pfx s : PyStr) : sqlLikeMatch pfx (pfx ++ s) = true := by
  unfold sqlLikeMatch pyLower
  rw [List.map_append]
  exact listStarts_self_append _ _

theorem strLt_append_left (p a b : PyStr) : strLt (p ++ a) (p ++ b) = strLt a b := by
  induction p with
  | nil => rfl
  | cons c t ih => simp [strLt, ih]

/-- The maximum of a list of naturals (`0` when empty); statement-side
device used to phrase the generated-identifier formula. -/
def maxNat (S : List Nat) : Nat := S.foldl max 0

theorem foldl_max_bound {S : List Nat} {b : Nat} (hb : ∀ k ∈ S, k ≤ b) :
    ∀ m, m ≤ b → S.foldl max m ≤ b := by
  induction S with
  | nil => intro m hm; exact hm
  | cons k t ih =>
    intro m hm
    rw [List.foldl_cons]
    exact ih (fun x hx => hb x (List.mem_cons_of_mem k hx))
      (max m k) (by
        have := hb k (List.mem_cons_self k t)
        omega)

theorem maxNat_le {S : List Nat} {b : Nat} (hb : ∀ k ∈ S, k ≤ b) : maxNat S ≤ b := by
  by_cases hS : S = []
  · subst hS
    simp [maxNat]
  · exact foldl_max_bound hb 0 (by omega)

theorem lexMax_aux (pfx : PyStr) (S : List Nat) :
    ∀ m, m ≤ 999 → (∀ k ∈ S, k ≤ 999) →
    (S.map (fun k => pfx ++ pad3 k)).foldl (fun acc i =>
        match acc with
        | none => some i
        | some mm => if strLt mm i then some i else some mm)
      (some (pfx ++ pad3 m)) = some (pfx ++ pad3 (S.foldl max m)) := by
  induction S with
  | nil => intro m _ _; rfl
  | cons k t ih =>
    intro m hm hb
    simp only [List.map_cons, List.foldl_cons]
    have hk : k ≤ 999 := hb k (List.mem_cons_self k t)
    have hb' : ∀ x ∈ t, x ≤ 999 := fun x hx => hb x (List.mem_cons_of_mem k hx)
    by_cases hmk : m < k
    · have hlt : strLt (pfx ++ pad3 m) (pfx ++ pad3 k) = true := by
        rw [strLt_append_left]
        exact (strLt_pad3_iff hm hk).mpr hmk
      rw [hlt]
      rw [if_pos rfl]
      have hmax : max m k = k := by omega
      rw [hmax]
      exact ih k hk hb'
    · have hlt : strLt (pfx ++ pad3 m) (pfx ++ pad3 k) = false := by
        rw [strLt_append_left]
        rw [Bool.eq_false_iff]
        intro hh
        exact hmk ((strLt_pad3_iff hm hk).mp hh)
      rw [hlt]
      rw [if_neg (by simp)]
      have hmax : max m k = m := by omega
      rw [hmax]
      exact ih m hm hb'

theorem lexMax_map_pad3 (pfx : PyStr) {S : List Nat} (hS : S ≠ [])
    (hb : ∀ k ∈ S, k ≤ 999) :
    lexMaxId (S.map (fun k => pfx ++ pad3 k)) = some (pfx ++ pad3 (maxNat S)) := by
  cases S with
  | nil => exact absurd rfl hS
  | cons k t =>
    unfold lexMaxId maxNat
    simp only [List.map_cons, List.foldl_cons]
    have hk : k ≤ 999 := hb k (List.mem_cons_self k t)
    have hmax0 : max 0 k = k := by omega
    rw [hmax0]
    exact lexMax_aux pfx t k hk (fun x hx => hb x (List.mem_cons_of_mem k hx))

theorem captureInsight_ids {clk : Clock} {sid cat con : PyStr}
    {ctx : Option PyStr} {ag : PyStr} {st st' : MachineState}
    (hr : captureInsight clk sid cat con ctx ag st = .ok st') :
    sessionIds st' = sessionIds st := by
  unfold captureInsight at hr
  cases hcat : normalize_capture_category cat with
  | error e => rw [hcat] at hr; cases hr
  | ok ccat =>
  rw [hcat] at hr
  cases hcon : normalize_capture_content con with
  | error e => rw [hcon] at hr; cases hr
  | ok ccon =>
  rw [hcon] at hr
  dsimp only at hr
  cases hfind : st.sessions.find? (fun r => r.id = sid) with
  | none => rw [hfind] at hr; cases hr
  | some row =>
  rw [hfind] at hr
  dsimp only at hr
  by_cases hstat : row.status ≠ SessionStatus.active
  · rw [if_pos hstat] at hr; cases hr
  · rw [if_neg hstat] at hr
    injection hr with hr
    subst hr
    unfold sessionIds
    exact (appendCaptureRow_pres st.sessions sid _).2

theorem completeSession_ids {clk : Clock} {sid su : PyStr}
    {ns : Option (List PyStr)} {ag : PyStr} {st st' : MachineState}
    (hr : completeSession clk sid su ns ag st = .ok st') :
    sessionIds st' = sessionIds st := by
  unfold completeSession at hr
  cases hsu : normalize_summary su with
  | error e => rw [hsu] at hr; cases hr
  | ok csu =>
  rw [hsu] at hr
  cases hns : normalize_next_steps ns with
  | error e => rw [hns] at hr; cases hr
  | ok cns =>
  rw [hns] at hr
  dsimp only at hr
  cases hfind : st.sessions.find? (fun r => r.id = sid) with
  | none => rw [hfind] at hr; cases hr
  | some row =>
  rw [hfind] at hr
  dsimp only at hr
  by_cases hstat : row.status ≠ SessionStatus.active
  · rw [if_pos hstat] at hr; cases hr
  · rw [if_neg hstat] at hr
    injection hr with hr
    subst hr
    unfold sessionIds
    exact completeRow_ids st.sessions sid clk.iso csu _

/-- C2: `_generate_session_id` builds `PS-{date}-{seq}`: when the existing
identifiers matching the day's PS-date prefix are exactly zero-padded
three-digit sequences bounded by 999, the new identifier is the prefix plus
the maximum suffix plus one (001 when none exist), zero-padded to three
digits; a successful start returns exactly that identifier and appends it
to the table, while capture and complete never change the identifier set —
so two same-day starts receive …-001 and …-002 regardless of interleaved
captures or completions. -/
theorem generate_session_id_spec :
    (∀ (datePart : PyStr) (ids : List PyStr) (S : List Nat),
      ids.filter (fun i =>
          sqlLikeMatch (chars ("PS-") ++ datePart ++ chars ("-")) i) =
        S.map (fun k => (chars ("PS-") ++ datePart ++ chars ("-")) ++ pad3 k) →
      (∀ k ∈ S, 1 ≤ k ∧ k ≤ 999) →
      generateSessionId datePart ids =
        (chars ("PS-") ++ datePart ++ chars ("-")) ++ pad3 (maxNat S + 1) ∧
      (maxNat S + 1 ≤ 999 → (pad3 (maxNat S + 1)).length = 3)) ∧
    (∀ (clk : Clock) (ty ti ag : PyStr) (sp md mpd : Option PyStr)
        (st : MachineState) (r : MachineState × PyStr),
      startSession clk ty ti ag sp md mpd st = .ok r →
      r.2 = generateSessionId clk.date (sessionIds st) ∧
      sessionIds r.1 = sessionIds st ++ [r.2]) ∧
    (∀ (clk : Clock) (sid cat con : PyStr) (ctx : Option PyStr) (ag : PyStr)
        (st st' : MachineState),
      captureInsight clk sid cat con ctx ag st = .ok st' →
      sessionIds st' = sessionIds st) ∧
    (∀ (clk : Clock) (sid su : PyStr) (ns : Option (List PyStr)) (ag : PyStr)
        (st st' : MachineState),
      completeSession clk sid su ns ag st = .ok st' →
      sessionIds st' = sessionIds st) := by
  refine ⟨?_, ?_, fun clk sid cat con ctx ag st st' hr => captureInsight_ids hr,
    fun clk sid su ns ag st st' hr => completeSession_ids hr⟩
  · intro datePart ids S hS hb
    constructor
    · unfold generateSessionId
      dsimp only
      rw [hS]
      cases S with
      | nil => rfl
      | cons k t =>
        have hb' : ∀ x ∈ k :: t, x ≤ 999 := fun x hx => (hb x hx).2
        rw [lexMax_map_pad3 _ (by simp) hb']
        dsimp only
        rw [lastDashChunk_pad3 _ (maxNat_le hb')]
        rw [pyInt?_pad3 (maxNat_le hb')]
        rfl
    · intro h999
      rw [pad3_eq h999]
      rfl
  · intro clk ty ti ag sp md mpd st r hr
    unfold startSession at hr
    cases hty : normalize_session_type ty with
    | error e => rw [hty] at hr; cases hr
    | ok cty =>
    rw [hty] at hr
    cases hti : normalize_title ti with
    | error e => rw [hti] at hr; cases hr
    | ok cti =>
    rw [hti] at hr
    cases hact : st.project.working.activeSession with
    | some info => rw [hact] at hr; cases hr
    | none =>
    rw [hact] at hr
    dsimp only at hr
    by_cases hmem : generateSessionId clk.date (st.sessions.map (fun r => r.id)) ∈
        st.sessions.map (fun r => r.id)
    · rw [if_pos hmem] at hr; cases hr
    · rw [if_neg hmem] at hr
      injection hr with hr
      subst hr
      unfold sessionIds
      constructor
      · rfl
      · simp

/-- Witness for C2: with no identifier for the day the generator yields
`…-001`; with exactly `…-001` present it yields `…-002`. -/
theorem generate_session_id_spec_witness :
    generateSessionId (chars ("2025-01-01")) [] =
      (chars ("PS-") ++ chars ("2025-01-01") ++ chars ("-")) ++ pad3 (maxNat [] + 1) ∧
    generateSessionId (chars ("2025-01-01"))
        [(chars ("PS-") ++ chars ("2025-01-01") ++ chars ("-")) ++ pad3 1] =
      (chars ("PS-") ++ chars ("2025-01-01") ++ chars ("-")) ++ pad3 (maxNat [1] + 1) :=
  ⟨(generate_session_id_spec.1 (chars ("2025-01-01")) [] [] rfl (by simp)).1,
   (generate_session_id_spec.1 (chars ("2025-01-01"))
      [(chars ("PS-") ++ chars ("2025-01-01") ++ chars ("-")) ++ pad3 1] [1]
      (by decide) (by decide)).1⟩

/-! ## Claim C8 — `as_of` by session identifier -/

theorem insSorted_mem {α : Type} (key : α → PyStr) (x : α) (l : List α) (y : α) :
    y ∈ insSorted key x l ↔ y = x ∨ y ∈ l := by
  induction l with
  | nil => simp [insSorted]
  | cons a t ih =>
    unfold insSorted
    split
    · simp only [List.mem_cons, ih]
      tauto
    · simp only [List.mem_cons]

theorem sortByKey_mem {α : Type} (key : α → PyStr) (l : List α) (y : α) :
    y ∈ sortByKey key l ↔ y ∈ l := by
  induction l with
  | nil => simp [sortByKey]
  | cons a t ih =>
    unfold sortByKey
    rw [insSorted_mem]
    simp only [List.mem_cons, ih]

theorem insSorted_length {α : Type} (key : α → PyStr) (x : α) (l : List α) :
    (insSorted key x l).length = l.length + 1 := by
  induction l with
  | nil => rfl
  | cons a t ih =>
    unfold insSorted
    split
    · simp only [List.length_cons, ih]
    · simp only [List.length_cons]

theorem sortByKey_length {α : Type} (key : α → PyStr) (l : List α) :
    (sortByKey key l).length = l.length := by
  induction l with
  | nil => rfl
  | cons a t ih =>
    unfold sortByKey
    rw [insSorted_length, ih, List.length_cons]

theorem numberRows_ids : ∀ (n : Nat) (l : List SessionRow),
    (numberRows n l).map (fun s => s.id) = l.map (fun r => r.id) := by
  intro n l
  induction l generalizing n with
  | nil => rfl
  | cons a t ih =>
    unfold numberRows
    simp only [List.map_cons]
    rw [ih]
    rfl

theorem pyOrS_eq_sqlEff (r : SessionRow)
    (hwf : ∀ t, r.completedAt = some t → t ≠ []) :
    pyOrS r.completedAt (some r.startedAt) = some (sqlEff r) := by
  unfold pyOrS sqlEff
  cases hc : r.completedAt with
  | none => rfl
  | some t =>
    dsimp only
    rw [if_neg (hwf t hc)]

theorem pyRowKeep_char {ref r : SessionRow} (hrid : r.id ≠ []) (hrefid : ref.id ≠ [])
    (hwfca : ∀ t, r.completedAt = some t → t ≠ [])
    (hle : strLe (sqlEff r) (sqlEff ref) = true) :
    (pyRowKeep none (some { timestamp := sqlEff ref, sessionId := some ref.id }) r
        = true ↔
      ¬(sqlEff r = sqlEff ref ∧ strLt ref.id r.id = true)) := by
  unfold pyRowKeep
  dsimp only
  rw [pyOrS_eq_sqlEff r hwfca]
  dsimp only
  rw [if_neg hrefid]
  rw [strLe_not_lt hle]
  rw [decide_eq_true (by exact hrid : r.id ≠ [])]
  simp only [Bool.not_false, Bool.true_and, Bool.and_true, Bool.and_eq_true,
    Bool.not_eq_true', Bool.and_eq_false_iff, decide_eq_false_iff_not,
    decide_eq_true_eq, Bool.eq_false_iff, ne_eq, not_not]

/-- C8: with `as_of` a session identifier, `_load_sessions` resolves it to
that session's effective timestamp (completion time, else start time) and
keeps exactly the completed sessions whose effective timestamp is at most
that reference timestamp, except those sharing the exact timestamp whose
identifier sorts after the reference identifier. -/
theorem load_sessions_as_of_spec (rows : List SessionRow) (ref : SessionRow)
    (limit : Nat)
    (href : rows.find? (fun r => r.id = ref.id) = some ref)
    (hps : listStarts (chars ("PS-")) (pyUpper ref.id) = true)
    (htrim : pyStrip ref.id = ref.id)
    (heff : sqlEff ref ≠ [])
    (hnorm : normalizeTimestamp (sqlEff ref) = some (sqlEff ref))
    (hwfid : ∀ r ∈ rows, r.id ≠ [])
    (hwfca : ∀ r ∈ rows, ∀ t, r.completedAt = some t → t ≠ [])
    (hnodup : (rows.map (fun r => r.id)).Nodup)
    (hcount : (rows.filter (sqlWhere (some (sqlEff ref)))).length ≤ max 1 limit) :
    ∃ loaded, loadSessions rows (some ref.id) none limit =
        .ok (loaded, some (sqlEff ref)) ∧
      ∀ r ∈ rows, (r.id ∈ loaded.map (fun s => s.id) ↔
        (r.status = SessionStatus.completed ∧
          strLe (sqlEff r) (sqlEff ref) = true ∧
          ¬(sqlEff r = sqlEff ref ∧ strLt ref.id r.id = true))) := by
  have hrefmem : ref ∈ rows := List.mem_of_find?_eq_some href
  have hrefid : ref.id ≠ [] := hwfid ref hrefmem
  have hnas : normalizeAsOf rows ref.id =
      .ok { timestamp := sqlEff ref, sessionId := some ref.id } := by
    unfold normalizeAsOf
    rw [htrim]
    rw [if_neg hrefid]
    rw [if_pos hps]
    rw [href]
    dsimp only
    rw [if_neg heff]
    rw [hnorm]
  refine ⟨numberRows 1
    (((sortByEff (rows.filter (sqlWhere (some (sqlEff ref))))).take
        (max 1 limit)).filter
      (pyRowKeep none (some { timestamp := sqlEff ref, sessionId := some ref.id }))),
    ?_, ?_⟩
  · unfold loadSessions
    dsimp only
    rw [hnas]
    rfl
  · intro r hr
    rw [numberRows_ids]
    have htake : (sortByEff (rows.filter (sqlWhere (some (sqlEff ref))))).take
        (max 1 limit) = sortByEff (rows.filter (sqlWhere (some (sqlEff ref)))) := by
      apply List.take_of_length_le
      unfold sortByEff
      rw [sortByKey_length]
      exact hcount
    rw [htake]
    constructor
    · intro hmem
      rw [List.mem_map] at hmem
      obtain ⟨r', hr', hid⟩ := hmem
      rw [List.mem_filter] at hr'
      obtain ⟨hr's, hkeep⟩ := hr'
      unfold sortByEff at hr's
      rw [sortByKey_mem] at hr's
      rw [List.mem_filter] at hr's
      obtain ⟨hr'mem, hwhere⟩ := hr's
      have hreq : r' = r := List.inj_on_of_nodup_map hnodup hr'mem hr hid
      subst hreq
      unfold sqlWhere at hwhere
      simp only [Bool.and_eq_true, decide_eq_true_eq] at hwhere
      obtain ⟨hst, hle⟩ := hwhere
      refine ⟨hst, hle, ?_⟩
      exact (pyRowKeep_char (hwfid r' hr'mem) hrefid (hwfca r' hr'mem) hle).mp hkeep
    · rintro ⟨hst, hle, htie⟩
      rw [List.mem_map]
      refine ⟨r, ?_, rfl⟩
      rw [List.mem_filter]
      constructor
      · unfold sortByEff
        rw [sortByKey_mem]
        rw [List.mem_filter]
        refine ⟨hr, ?_⟩
        unfold sqlWhere
        simp only [Bool.and_eq_true, decide_eq_true_eq]
        exact ⟨hst, hle⟩
      · exact (pyRowKeep_char (hwfid r hr) hrefid (hwfca r hr) hle).mpr htie

/-- Fixture: first completed session of the C8 witness day. -/
def wRow1 : SessionRow :=
  { id := chars ("PS-2025-01-01-001"), stype := chars ("planning"),
    title := chars ("Design API"), sprintId := none,
    startedAt := chars ("2025-01-01T09:00:00Z"),
    completedAt := some (chars ("2025-01-01T10:00:00Z")),
    agent := chars ("assistant"), status := .completed, captures := [],
    nextSteps := none, summary := some (chars ("done")), metaDomain := none,
    metaProjectDomain := none }

/-- Fixture: second completed session sharing the exact completion
timestamp. -/
def wRow2 : SessionRow :=
  { id := chars ("PS-2025-01-01-002"), stype := chars ("review"),
    title := chars ("Review API"), sprintId := none,
    startedAt := chars ("2025-01-01T09:30:00Z"),
    completedAt := some (chars ("2025-01-01T10:00:00Z")),
    agent := chars ("assistant"), status := .completed, captures := [],
    nextSteps := none, summary := some (chars ("done too")), metaDomain := none,
    metaProjectDomain := none }

/-- Fixture: the C8 witness table. -/
def wRows : List SessionRow := [wRow1, wRow2]

/-- Fixture: what the builder loads for `as_of = PS-2025-01-01-001`. -/
def wLoaded : List LoadedSession :=
  match loadSessions wRows (some (chars ("PS-2025-01-01-001"))) none
      SESSION_FETCH_LIMIT with
  | .ok p => p.1
  | .error _ => []

/-- Witness for C8: with two completed sessions sharing the completion
timestamp, `as_of = …-001` resolves to that timestamp, keeps `…-001` and
excludes the later-sorting `…-002`. -/
theorem load_sessions_as_of_spec_witness :
    loadSessions wRows (some (chars ("PS-2025-01-01-001"))) none
        SESSION_FETCH_LIMIT =
      .ok (wLoaded, some (chars ("2025-01-01T10:00:00Z"))) ∧
    chars ("PS-2025-01-01-001") ∈ wLoaded.map (fun s => s.id) ∧
    ¬ (chars ("PS-2025-01-01-002") ∈ wLoaded.map (fun s => s.id)) := by
  obtain ⟨loaded, hok, hiff⟩ :=
    load_sessions_as_of_spec wRows wRow1 SESSION_FETCH_LIMIT (by decide)
      (by decide) (by decide) (by decide) (by decide) (by decide) (by decide)
      (by decide) (by decide)
  have hwl : wLoaded = loaded := by
    unfold wLoaded
    rw [show some (chars ("PS-2025-01-01-001")) = some wRow1.id from rfl, hok]
  refine ⟨?_, ?_, ?_⟩
  · rw [hwl]
    exact hok
  · rw [hwl]
    exact (hiff wRow1 (by decide)).mpr (by decide)
  · rw [hwl]
    intro hmem
    exact absurd ((hiff wRow2 (by decide)).mp hmem) (by decide)

end CMOS
